import Mathlib

/-!
# Verification of the frontend message-stream reducer

Shallow embedding of `draw_messages` / `handle_agent_msgs` from
`src/apps/frontend/src/frontend/streamlit_app.py`: the streaming
message-reassembly and tool-call correlation protocol that renders one
agent turn.

Messages are modelled as a tagged union mirroring the langchain message
classes the code dispatches on (`HumanMessage`, `AIMessage`, `ToolMessage`,
anything else).  The Streamlit rendering sink is modelled as pure data:
chat-message blocks, tool-call status panels keyed by call id, and nested
popovers keyed by nested call id.  `st.session_state.messages.append` is
modelled by the `persisted` accumulator.  `st.stop()` and uncaught Python
exceptions (`KeyError`, `StopAsyncIteration`) are modelled as abnormal
`Outcome` values that abort the reduction, returning the unconsumed
remainder of the stream.
-/

set_option maxHeartbeats 1600000

namespace StreamReducer

/-- Characters of `pat` are a prefix of the second list. -/
def startsWith : List Char → List Char → Bool
  | [], _ => true
  | _ :: _, [] => false
  | a :: as, b :: bs => a == b && startsWith as bs

/-- Boolean substring containment on character lists (Python `in` on str). -/
def hasSub (pat : List Char) : List Char → Bool
  | [] => startsWith pat []
  | c :: rest => startsWith pat (c :: rest) || hasSub pat rest

/-- Hand-off detection: `"transfer_to" in tool_call["name"]` (line 272). -/
def isHandoff (name : String) : Bool := hasSub "transfer_to".data name.data

/-- One entry of `AIMessage.tool_calls`: `{id, name, args}`.  `args` is an
opaque payload the reducer never inspects, modelled as a string. -/
structure ToolCall where
  id : String
  name : String
  args : String
deriving DecidableEq, Repr

/-- A message event, mirroring the langchain classes the code dispatches on:
`HumanMessage`, `AIMessage` (content, tool_calls, response_metadata
finish_reason), `ToolMessage` (tool_call_id, content), and any other
`BaseMessage` subclass (e.g. system), which only the error arm sees. -/
inductive Msg where
  | human (content : String)
  | ai (content : String) (tool_calls : List ToolCall) (finish_reason : Option String)
  | tool (tool_call_id : String) (content : String)
  | other (content : String)
deriving DecidableEq, Repr

/-- The `.type` discriminant string of a langchain message. -/
def Msg.type : Msg → String
  | .human _ => "human"
  | .ai _ _ _ => "ai"
  | .tool _ _ => "tool"
  | .other _ => "other"

/-- `.content` attribute. -/
def Msg.content : Msg → String
  | .human c => c
  | .ai c _ _ => c
  | .tool _ c => c
  | .other c => c

/-- `getattr(msg, "tool_call_id", None)`: only `ToolMessage` has the attribute. -/
def Msg.toolCallId : Msg → Option String
  | .tool i _ => some i
  | _ => none

/-- `getattr(msg, "response_metadata", {}).get("finish_reason")`: only an
`AIMessage` carries a finish reason. -/
def Msg.finishReason : Msg → Option String
  | .ai _ _ f => f
  | _ => none

/-- `hasattr(msg, "tool_calls") and msg.tool_calls`: only `AIMessage` has them. -/
def Msg.toolCalls : Msg → List ToolCall
  | .ai _ tcs _ => tcs
  | _ => []

/-- Discriminates top-level human messages (the kind never persisted). -/
def Msg.isHumanMsg : Msg → Bool
  | .human _ => true
  | _ => false

/-- Character-level replacement of a newline by two spaces and a newline. -/
def normChars : List Char → List Char
  | [] => []
  | ch :: rest =>
    if ch = '\n' then ' ' :: ' ' :: '\n' :: normChars rest
    else ch :: normChars rest

/-- `msg.content.replace("\n", "  \n")` (line 254): since the pattern is a
single character, replacement is the character-wise map above. -/
def normalize (s : String) : String := ⟨normChars s.data⟩

/-- Status of a tool-call status container. -/
inductive PanelState where
  | running
  | complete
deriving DecidableEq, Repr

/-- A `st.status` container for one tool call: name, recorded input args,
the sequence of output payloads written to it, its state, and how many
times `status.update(state="complete")` was invoked on it. -/
structure Panel where
  name : String
  args : String
  outputs : List String
  state : PanelState
  completions : Nat
deriving DecidableEq, Repr

/-- A nested popover opened by `handle_agent_msgs` for a nested tool call:
name, input args, the id of the parent status panel, and output payloads. -/
structure Popover where
  name : String
  args : String
  parent : String
  outputs : List String
deriving DecidableEq, Repr

/-- An item rendered inside an AI chat-message block: a text write or a
reference to a tool-call status panel (panel data lives in the panel map). -/
inductive AItem where
  | text (s : String)
  | panelRef (id : String)
deriving DecidableEq, Repr

/-- A chat-message block.  Items of an AI block are stored most-recent-first. -/
inductive Block where
  | human (content : String)
  | ai (itemsRev : List AItem)
deriving DecidableEq, Repr

/-- The rendering / persistence state built by one reduction pass.
`blocksRev` stores chat blocks most-recent-first; `panels` and `pops` are
association lists in creation order; `persisted` models
`st.session_state.messages` (only the delta appended by this pass). -/
structure RState where
  blocksRev : List Block
  panels : List (String × Panel)
  pops : List (String × Popover)
  persisted : List Msg
deriving DecidableEq, Repr

def initState : RState := ⟨[], [], [], []⟩

/-- First-match association-list lookup. -/
def alookup {α : Type} : List (String × α) → String → Option α
  | [], _ => none
  | (k, v) :: rest, key => if k = key then some v else alookup rest key

/-- First-match association-list update (no-op on a missing key). -/
def aupdate {α : Type} : List (String × α) → String → (α → α) → List (String × α)
  | [], _, _ => []
  | (k, v) :: rest, key, f =>
    if k = key then (k, f v) :: rest else (k, v) :: aupdate rest key f

/-- `st.session_state.messages.append(m)` guarded by `is_new`. -/
def persist (is_new : Bool) (m : Msg) (st : RState) : RState :=
  if is_new then { st with persisted := st.persisted ++ [m] } else st

/-- Open a new human chat block (line 235). -/
def startHuman (c : String) (st : RState) : RState :=
  { st with blocksRev := .human c :: st.blocksRev }

/-- Open a new AI chat block (line 247). -/
def startAiBlock (st : RState) : RState :=
  { st with blocksRev := .ai [] :: st.blocksRev }

/-- Write an item into the current (most recent) AI block. -/
def pushItem (it : AItem) (st : RState) : RState :=
  match st.blocksRev with
  | .ai items :: bs => { st with blocksRev := .ai (it :: items) :: bs }
  | _ => st

/-- Apply `f` to the panel keyed `pid`. -/
def writePanel (st : RState) (pid : String) (f : Panel → Panel) : RState :=
  { st with panels := aupdate st.panels pid f }

/-- `status.text(c)` / output write on a status panel. -/
def panelOut (c : String) (p : Panel) : Panel :=
  { p with outputs := p.outputs ++ [c] }

/-- `status.update(state="complete")`. -/
def panelComplete (p : Panel) : Panel :=
  { p with state := .complete, completions := p.completions + 1 }

/-- `if status: status.update(state="complete")` on an optional panel. -/
def completeOpt (statusId : Option String) (st : RState) : RState :=
  match statusId with
  | some pid => writePanel st pid panelComplete
  | none => st

/-- `popover.text(c)` on the popover keyed `i`. -/
def writePop (st : RState) (i : String) (c : String) : RState :=
  { st with pops := aupdate st.pops i (fun q => { q with outputs := q.outputs ++ [c] }) }

/-- Lines 342-348: open one popover per nested tool call under panel `pid`,
registering each in `nested_popovers` (the returned id list). -/
def addPops (pid : String) : List ToolCall → RState → List String → RState × List String
  | [], st, lp => (st, lp)
  | tc :: tcs, st, lp =>
    addPops pid tcs
      { st with pops := st.pops ++ [(tc.id, ⟨tc.name, tc.args, pid, []⟩)] }
      (lp ++ [tc.id])

/-- Lines 260-268: create one status panel per tool call (state `running`
when new, `complete` on replay), record its input args, and reference it
in the current AI block. -/
def createPanels (is_new : Bool) : List ToolCall → RState → RState
  | [], st => st
  | tc :: tcs, st =>
    createPanels is_new tcs
      (pushItem (.panelRef tc.id)
        { st with
          panels := st.panels ++
            [(tc.id, ⟨tc.name, tc.args, [], if is_new then .running else .complete, 0⟩)] })

/-- Line 319: `finish_reason is not None and finish_reason != "tool_calls"`. -/
def isFinished (m : Msg) : Bool :=
  match m.finishReason with
  | some r => r != "tool_calls"
  | none => false

/-- How the reduction of one turn ended.  `ok` is normal return; the other
constructors model aborts: `unexpectedType` is the `st.stop()` on a
top-level message that is neither human nor AI (line 296), `unexpectedResult`
the `st.stop()` on a non-tool message where a tool result was expected
(line 280), `keyError` the uncaught `call_results[...]` lookup failure
(line 287), `exhausted` an uncaught `StopAsyncIteration` from a
defaultless `anext` (lines 275, 307, 324). -/
inductive Outcome where
  | ok
  | unexpectedType (t : String)
  | unexpectedResult (t : String)
  | keyError (id : String)
  | exhausted
deriving DecidableEq, Repr

/-- Lines 315-350: the `while True` loop of `handle_agent_msgs`.  `cur` is
`first_msg` (re-bound to each consumed message), `localPops` the ids in
`nested_popovers`, `statusId` the located parent panel. -/
def handleLoop (is_new : Bool) (statusId : Option String) (cur : Msg)
    (localPops : List String) (rest : List Msg) (st : RState) :
    Outcome × RState × List Msg :=
  if isFinished cur then
    (.ok, completeOpt statusId st, rest)
  else
    match rest with
    | [] => (.exhausted, st, [])
    | sub :: rest' =>
      let st1 := persist is_new sub st
      if sub.type == "tool" && localPops.contains (sub.toolCallId.getD "") then
        handleLoop is_new statusId sub localPops rest'
          (writePop st1 (sub.toolCallId.getD "") sub.content)
      else
        match statusId with
        | some pid =>
          let st2 := if sub.content ≠ "" then writePanel st1 pid (panelOut sub.content) else st1
          let (st3, lp') := addPops pid sub.toolCalls st2 localPops
          handleLoop is_new statusId sub lp' rest' st3
        | none => handleLoop is_new statusId sub localPops rest' st1

/-- Lines 299-350: `handle_agent_msgs`.  Pulls the first nested message
(raising `exhausted` if the stream is spent), persists it when new, locates
the parent panel via `call_results.get(getattr(first_msg, "tool_call_id",
None))` restricted to this turn's panel ids, writes its content, then
enters the loop. -/
def handle_agent_msgs (is_new : Bool) (localIds : List String)
    (rest : List Msg) (st : RState) : Outcome × RState × List Msg :=
  match rest with
  | [] => (.exhausted, st, [])
  | first :: rest' =>
    let st1 := persist is_new first st
    let statusId : Option String :=
      match first.toolCallId with
      | some i => if localIds.contains i then some i else none
      | none => none
    let st2 :=
      match statusId with
      | some pid =>
        if first.content ≠ "" then writePanel st1 pid (panelOut first.content) else st1
      | none => st1
    handleLoop is_new statusId first [] rest' st2

/-- Lines 270-290: the second pass over `msg.tool_calls`.  A hand-off call
delegates to `handle_agent_msgs` and breaks; otherwise the next event is
pulled and must be a tool message, which is persisted, then written to the
panel looked up by its (truthy) `tool_call_id` — an unknown id raises
`KeyError`; a falsy id leaves `status` bound to the previously referenced
panel `cur`. -/
def processToolCalls (is_new : Bool) (localIds : List String) :
    List ToolCall → Option String → List Msg → RState → Outcome × RState × List Msg
  | [], _, rest, st => (.ok, st, rest)
  | tc :: tcs, cur, rest, st =>
    if isHandoff tc.name then
      handle_agent_msgs is_new localIds rest st
    else
      match rest with
      | [] => (.exhausted, st, [])
      | .tool tcid c :: rest' =>
        let st1 := persist is_new (.tool tcid c) st
        if tcid ≠ "" then
          if localIds.contains tcid then
            processToolCalls is_new localIds tcs (some tcid) rest'
              (writePanel st1 tcid (fun p => panelComplete (panelOut c p)))
          else
            (.keyError tcid, st1, rest')
        else
          let st2 :=
            match cur with
            | some pid => writePanel st1 pid (fun p => panelComplete (panelOut c p))
            | none => st1
          processToolCalls is_new localIds tcs cur rest' st2
      | r :: rest' => (.unexpectedResult r.type, st, rest')

/-- Bound needed for the termination of the outer message loop. -/
theorem handleLoop_len (is_new : Bool) (statusId : Option String) (cur : Msg)
    (localPops : List String) (rest : List Msg) (st : RState) :
    (handleLoop is_new statusId cur localPops rest st).2.2.length ≤ rest.length := by
  induction rest generalizing cur localPops st with
  | nil => unfold handleLoop; split <;> simp
  | cons sub rest' ih =>
    unfold handleLoop
    split
    · simp
    · simp only []
      split
      · exact le_trans (ih ..) (by simp)
      · split
        · exact le_trans (ih ..) (by simp)
        · exact le_trans (ih ..) (by simp)

theorem handle_agent_msgs_len (is_new : Bool) (localIds : List String)
    (rest : List Msg) (st : RState) :
    (handle_agent_msgs is_new localIds rest st).2.2.length ≤ rest.length := by
  unfold handle_agent_msgs
  match rest with
  | [] => simp
  | first :: rest' =>
    simp only []
    exact le_trans (handleLoop_len ..) (by simp)

theorem processToolCalls_len (is_new : Bool) (localIds : List String)
    (tcs : List ToolCall) (cur : Option String) (rest : List Msg) (st : RState) :
    (processToolCalls is_new localIds tcs cur rest st).2.2.length ≤ rest.length := by
  induction tcs generalizing cur rest st with
  | nil => simp [processToolCalls]
  | cons tc tcs ih =>
    unfold processToolCalls
    split
    · exact handle_agent_msgs_len ..
    · match rest with
      | [] => simp
      | .tool tcid c :: rest' =>
        simp only []
        split
        · split
          · exact le_trans (ih ..) (by simp)
          · simp
        · exact le_trans (ih ..) (by simp)
      | .human c :: rest' => simp [Msg.type]
      | .ai c tcs2 f :: rest' => simp [Msg.type]
      | .other c :: rest' => simp [Msg.type]

/-- Tracks `last_message_type` (line 221): `start` is the initial `None`. -/
inductive LastK where
  | start
  | human
  | ai
deriving DecidableEq, Repr

/-- Lines 241-254 for one `AIMessage`: persist it when new, open a new AI
block unless the previous block is AI, and write the (newline-normalized)
content when non-empty. -/
def aiPrep (is_new : Bool) (m : Msg) (lastK : LastK) (st : RState) : RState :=
  let st1 := persist is_new m st
  let st2 := if lastK ≠ .ai then startAiBlock st1 else st1
  if m.content ≠ "" then pushItem (.text (normalize m.content)) st2 else st2

/-- Lines 225-296: the main `while` loop of `draw_messages`.  Human messages
open a human block (and are never persisted); AI messages are persisted when
new, coalesced into the current AI block unless the previous block was not
AI, have their content written, and—when they carry tool calls—have panels
created and the second pass run; any other message type aborts via
`st.stop()`. -/
def drawLoop (is_new : Bool) (evs : List Msg) (lastK : LastK) (st : RState) :
    Outcome × RState × List Msg :=
  match evs with
  | [] => (.ok, st, [])
  | .human c :: rest => drawLoop is_new rest .human (startHuman c st)
  | .ai c tcs fin :: rest =>
    let st3 := aiPrep is_new (.ai c tcs fin) lastK st
    if tcs.isEmpty then drawLoop is_new rest .ai st3
    else
      let res := processToolCalls is_new (tcs.map ToolCall.id) tcs
        (tcs.getLast?.map ToolCall.id) rest (createPanels is_new tcs st3)
      if res.1 = .ok then drawLoop is_new res.2.2 .ai res.2.1
      else res
  | m :: rest => (.unexpectedType m.type, st, rest)
termination_by evs.length
decreasing_by
  · simp
  · simp
  · simp only [List.length_cons]
    exact Nat.lt_succ_of_le (processToolCalls_len ..)

/-- Entry point: `draw_messages(messages_agen, is_new)` starting from a fresh
turn context (`last_message_type = None`, empty rendering and persistence). -/
def draw_messages (evs : List Msg) (is_new : Bool) : Outcome × RState × List Msg :=
  drawLoop is_new evs .start initState

unseal drawLoop

/-! ## Concrete event streams used by the scenario claims -/

/-- The spec's nested hand-off scenario, verbatim: four events, no success
`ToolResult` for the hand-off call `c1`. -/
def nestedScenario4 : List Msg :=
  [.ai "" [⟨"c1", "transfer_to_billing", "{}"⟩] none,
   .ai "checking" [⟨"n1", "lookup", "{}"⟩] (some "tool_calls"),
   .tool "n1" "found",
   .ai "done" [] (some "stop")]

/-- The nested hand-off scenario as the code expects it: the hand-off call is
answered first by a `ToolResult` carrying `tool_call_id = "c1"` (the
"Success tool call message" of the comment at line 306), then the nested
agent's events follow. -/
def nestedScenario5 : List Msg :=
  [.ai "" [⟨"c1", "transfer_to_billing", "{}"⟩] none,
   .tool "c1" "Successfully transferred",
   .ai "checking" [⟨"n1", "lookup", "{}"⟩] (some "tool_calls"),
   .tool "n1" "found",
   .ai "done" [] (some "stop")]

/-- A non-hand-off tool call answered by a result with an unknown id. -/
def unknownIdStream : List Msg :=
  [.ai "" [⟨"c1", "search", "{}"⟩] none, .tool "zz" "res"]

/-- A hand-off call after which the stream is exhausted. -/
def danglingHandoff : List Msg :=
  [.ai "" [⟨"c1", "transfer_to_billing", "{}"⟩] none]

/-- Two tool calls; the first result resolves `c1`, the second carries a
falsy (empty) `tool_call_id`. -/
def falsyIdStream : List Msg :=
  [.ai "" [⟨"c1", "f", "a1"⟩, ⟨"c2", "g", "a2"⟩] none,
   .tool "c1" "r1",
   .tool "" "x"]

/-! ## Claim C1 -/

/-- Claim C1 is false as stated: on the literal four-event stream the first
nested message is an `AIMessage`, so `call_results.get(getattr(first_msg,
"tool_call_id", None))` yields no panel; the top panel `c1` is left
`running` (never completed), no nested popover is created and the
`ToolResult` content `"found"` is written nowhere.  Only the persistence
part of the claim holds: all four messages are persisted in arrival
order. -/
theorem C1_counterexample :
    (draw_messages nestedScenario4 true).1 = .ok ∧
    alookup (draw_messages nestedScenario4 true).2.1.panels "c1" =
      some ⟨"transfer_to_billing", "{}", [], .running, 0⟩ ∧
    (draw_messages nestedScenario4 true).2.1.pops = [] ∧
    (draw_messages nestedScenario4 true).2.1.persisted = nestedScenario4 := by
  decide

/-- Claim C1, amended: with the success `ToolResult(tool_call_id:"c1")`
event the code's protocol expects inserted after the hand-off `AiTurn`, the
reduction with `mark_as_new = true` yields the top panel
`"transfer_to_billing"` complete (exactly one completion), exactly one
nested popover `"lookup"` under it whose output slot equals `"found"`, and
a persisted list of exactly 5 messages in arrival order. -/
theorem C1_theorem :
    (draw_messages nestedScenario5 true).1 = .ok ∧
    alookup (draw_messages nestedScenario5 true).2.1.panels "c1" =
      some ⟨"transfer_to_billing", "{}",
            ["Successfully transferred", "checking", "done"], .complete, 1⟩ ∧
    (draw_messages nestedScenario5 true).2.1.pops =
      [("n1", ⟨"lookup", "{}", "c1", ["found"]⟩)] ∧
    (draw_messages nestedScenario5 true).2.1.persisted = nestedScenario5 := by
  decide

/-! ## Claim C2 -/

/-- Claim C2 is false as stated: a `ToolResult` whose (truthy) id has no
registered panel hits `call_results[tool_result.tool_call_id]` (line 287),
an uncaught `KeyError` — the reducer does raise.  The message is appended
to the persisted list before the lookup, and no panel is mutated. -/
theorem C2_counterexample :
    (draw_messages unknownIdStream true).1 = .keyError "zz" ∧
    (draw_messages unknownIdStream true).2.1.persisted = unknownIdStream ∧
    alookup (draw_messages unknownIdStream true).2.1.panels "c1" =
      some ⟨"search", "{}", [], .running, 0⟩ := by
  decide

/-- Claim C2, amended: when the top-level reducer pulls, as the answer to a
non-hand-off tool call, a `ToolResult` whose truthy `tool_call_id` has no
registered panel, it first appends the result to the persisted list (when
`mark_as_new = true`) and then raises a `KeyError` that aborts the turn;
no panel is mutated. -/
theorem C2_theorem (is_new : Bool) (localIds : List String) (tc : ToolCall)
    (tcs : List ToolCall) (cur : Option String) (tcid c : String)
    (rest : List Msg) (st : RState)
    (hnh : isHandoff tc.name = false) (hne : tcid ≠ "")
    (hmem : localIds.contains tcid = false) :
    processToolCalls is_new localIds (tc :: tcs) cur (.tool tcid c :: rest) st =
      (.keyError tcid, persist is_new (.tool tcid c) st, rest) ∧
    (persist is_new (.tool tcid c) st).panels = st.panels ∧
    (persist true (.tool tcid c) st).persisted = st.persisted ++ [.tool tcid c] := by
  have hmem' : ¬ tcid ∈ localIds := by simpa using hmem
  refine ⟨?_, ?_, ?_⟩
  · simp [processToolCalls, hnh, hne, hmem']
  · unfold persist; split <;> rfl
  · simp [persist]

/-- Witness for C2_theorem at a concrete unknown id. -/
theorem C2_witness :
    processToolCalls true ["c1"] [⟨"c1", "search", "{}"⟩] (some "c1")
        [.tool "zz" "res"] initState =
      (.keyError "zz", persist true (.tool "zz" "res") initState, []) ∧
    (persist true (.tool "zz" "res") initState).panels = initState.panels ∧
    (persist true (.tool "zz" "res") initState).persisted =
      initState.persisted ++ [.tool "zz" "res"] :=
  C2_theorem true ["c1"] ⟨"c1", "search", "{}"⟩ [] (some "c1") "zz" "res" []
    initState (by decide) (by decide) (by decide)

/-! ## Claim C4 -/

/-- Claim C4 is false in one conjunct: when the stream is exhausted while
`handle_agent_msgs` is still waiting for a finish signal, the defaultless
`await anext(messages_agen)` (lines 307/324) raises `StopAsyncIteration`,
which propagates uncaught — an exception is raised.  The hand-off panel is
indeed left non-terminal (`running`, zero completions). -/
theorem C4_counterexample :
    (draw_messages danglingHandoff true).1 = .exhausted ∧
    alookup (draw_messages danglingHandoff true).2.1.panels "c1" =
      some ⟨"transfer_to_billing", "{}", [], .running, 0⟩ := by
  decide

/-! ## Claim C10 -/

/-- Claim C10 is false as stated: after an earlier result resolved panel
`c1`, a falsy-id `ToolResult` is written to `c1` (the most recently
referenced panel, re-completing it) — not to `c2`, the most recently
created panel, which stays running and empty. -/
theorem C10_counterexample :
    (draw_messages falsyIdStream true).1 = .ok ∧
    alookup (draw_messages falsyIdStream true).2.1.panels "c2" =
      some ⟨"g", "a2", [], .running, 0⟩ ∧
    alookup (draw_messages falsyIdStream true).2.1.panels "c1" =
      some ⟨"f", "a1", ["r1", "x"], .complete, 2⟩ := by
  decide

/-- Claim C10, amended: a falsy-id `ToolResult` is written to the most
recently *referenced* status panel of the `AiTurn` — the panel of the last
preceding truthy-id result, initially the panel of the last tool call in
the creation pass — and that panel is marked complete (the write is not
skipped).  First conjunct: the falsy-id step writes content to the
currently referenced panel `pid` and completes it; second conjunct: a
truthy-id step re-points the reference at its own panel. -/
theorem C10_theorem (is_new : Bool) (localIds : List String) (pid : String)
    (tc : ToolCall) (tcs : List ToolCall) (c : String) (rest : List Msg)
    (st : RState) (hnh : isHandoff tc.name = false) :
    processToolCalls is_new localIds (tc :: tcs) (some pid) (.tool "" c :: rest) st =
      processToolCalls is_new localIds tcs (some pid) rest
        (writePanel (persist is_new (.tool "" c) st) pid
          (fun p => panelComplete (panelOut c p))) ∧
    (∀ (cur0 : Option String) (tcid c' : String), tcid ≠ "" →
      localIds.contains tcid = true →
      processToolCalls is_new localIds (tc :: tcs) cur0 (.tool tcid c' :: rest) st =
        processToolCalls is_new localIds tcs (some tcid) rest
          (writePanel (persist is_new (.tool tcid c') st) tcid
            (fun p => panelComplete (panelOut c' p)))) := by
  constructor
  · simp [processToolCalls, hnh]
  · intro cur0 tcid c' hne hmem
    have hmem' : tcid ∈ localIds := by simpa using hmem
    simp [processToolCalls, hnh, hne, hmem']

/-! ## Projection lemmas for the state operations -/

@[simp] theorem pushItem_panels (it : AItem) (st : RState) :
    (pushItem it st).panels = st.panels := by
  unfold pushItem; split <;> rfl

@[simp] theorem pushItem_pops (it : AItem) (st : RState) :
    (pushItem it st).pops = st.pops := by
  unfold pushItem; split <;> rfl

@[simp] theorem pushItem_persisted (it : AItem) (st : RState) :
    (pushItem it st).persisted = st.persisted := by
  unfold pushItem; split <;> rfl

@[simp] theorem persist_panels (b : Bool) (m : Msg) (st : RState) :
    (persist b m st).panels = st.panels := by
  unfold persist; split <;> rfl

@[simp] theorem persist_pops (b : Bool) (m : Msg) (st : RState) :
    (persist b m st).pops = st.pops := by
  unfold persist; split <;> rfl

@[simp] theorem persist_blocksRev (b : Bool) (m : Msg) (st : RState) :
    (persist b m st).blocksRev = st.blocksRev := by
  unfold persist; split <;> rfl

@[simp] theorem persist_true_persisted (m : Msg) (st : RState) :
    (persist true m st).persisted = st.persisted ++ [m] := rfl

@[simp] theorem persist_false (m : Msg) (st : RState) :
    persist false m st = st := rfl

@[simp] theorem aiPrep_panels (is_new : Bool) (m : Msg) (k : LastK) (st : RState) :
    (aiPrep is_new m k st).panels = st.panels := by
  by_cases h1 : m.content = "" <;> by_cases h2 : k = LastK.ai <;>
    simp [aiPrep, h1, h2, startAiBlock]

@[simp] theorem aiPrep_pops (is_new : Bool) (m : Msg) (k : LastK) (st : RState) :
    (aiPrep is_new m k st).pops = st.pops := by
  by_cases h1 : m.content = "" <;> by_cases h2 : k = LastK.ai <;>
    simp [aiPrep, h1, h2, startAiBlock]

@[simp] theorem aiPrep_true_persisted (m : Msg) (k : LastK) (st : RState) :
    (aiPrep true m k st).persisted = st.persisted ++ [m] := by
  by_cases h1 : m.content = "" <;> by_cases h2 : k = LastK.ai <;>
    simp [aiPrep, h1, h2, persist, startAiBlock]

@[simp] theorem aiPrep_false_persisted (m : Msg) (k : LastK) (st : RState) :
    (aiPrep false m k st).persisted = st.persisted := by
  by_cases h1 : m.content = "" <;> by_cases h2 : k = LastK.ai <;>
    simp [aiPrep, h1, h2, startAiBlock]

@[simp] theorem startAiBlock_panels (st : RState) :
    (startAiBlock st).panels = st.panels := rfl

@[simp] theorem startAiBlock_pops (st : RState) :
    (startAiBlock st).pops = st.pops := rfl

@[simp] theorem startAiBlock_persisted (st : RState) :
    (startAiBlock st).persisted = st.persisted := rfl

@[simp] theorem startHuman_panels (c : String) (st : RState) :
    (startHuman c st).panels = st.panels := rfl

@[simp] theorem startHuman_pops (c : String) (st : RState) :
    (startHuman c st).pops = st.pops := rfl

@[simp] theorem startHuman_persisted (c : String) (st : RState) :
    (startHuman c st).persisted = st.persisted := rfl

@[simp] theorem writePanel_panels (st : RState) (pid : String) (f : Panel → Panel) :
    (writePanel st pid f).panels = aupdate st.panels pid f := rfl

@[simp] theorem writePanel_persisted (st : RState) (pid : String) (f : Panel → Panel) :
    (writePanel st pid f).persisted = st.persisted := rfl

@[simp] theorem writePanel_pops (st : RState) (pid : String) (f : Panel → Panel) :
    (writePanel st pid f).pops = st.pops := rfl

@[simp] theorem writePanel_blocksRev (st : RState) (pid : String) (f : Panel → Panel) :
    (writePanel st pid f).blocksRev = st.blocksRev := rfl

@[simp] theorem writePop_panels (st : RState) (i c : String) :
    (writePop st i c).panels = st.panels := rfl

@[simp] theorem writePop_persisted (st : RState) (i c : String) :
    (writePop st i c).persisted = st.persisted := rfl

@[simp] theorem writePop_blocksRev (st : RState) (i c : String) :
    (writePop st i c).blocksRev = st.blocksRev := rfl

@[simp] theorem completeOpt_persisted (sid : Option String) (st : RState) :
    (completeOpt sid st).persisted = st.persisted := by
  unfold completeOpt; split <;> rfl

@[simp] theorem completeOpt_pops (sid : Option String) (st : RState) :
    (completeOpt sid st).pops = st.pops := by
  unfold completeOpt; split <;> rfl

@[simp] theorem completeOpt_blocksRev (sid : Option String) (st : RState) :
    (completeOpt sid st).blocksRev = st.blocksRev := by
  unfold completeOpt; split <;> rfl

/-- The popover entries `addPops` appends for a run of nested tool calls. -/
def popEntries (pid : String) (tcs : List ToolCall) : List (String × Popover) :=
  tcs.map (fun tc => (tc.id, ⟨tc.name, tc.args, pid, []⟩))

/-- Closed form of `addPops`. -/
theorem addPops_spec (pid : String) (tcs : List ToolCall) (st : RState)
    (lp : List String) :
    addPops pid tcs st lp =
      ({ st with pops := st.pops ++ popEntries pid tcs }, lp ++ tcs.map ToolCall.id) := by
  induction tcs generalizing st lp with
  | nil => simp [addPops, popEntries]
  | cons tc tcs ih => simp [addPops, popEntries, ih]

/-- The panel entries `createPanels` appends for the tool calls of one turn. -/
def panelEntries (is_new : Bool) (tcs : List ToolCall) : List (String × Panel) :=
  tcs.map (fun tc => (tc.id, ⟨tc.name, tc.args, [],
    if is_new then .running else .complete, 0⟩))

@[simp] theorem createPanels_persisted (is_new : Bool) (tcs : List ToolCall) (st : RState) :
    (createPanels is_new tcs st).persisted = st.persisted := by
  induction tcs generalizing st with
  | nil => rfl
  | cons tc tcs ih => simp [createPanels, ih]

@[simp] theorem createPanels_pops (is_new : Bool) (tcs : List ToolCall) (st : RState) :
    (createPanels is_new tcs st).pops = st.pops := by
  induction tcs generalizing st with
  | nil => rfl
  | cons tc tcs ih => simp [createPanels, ih]

@[simp] theorem createPanels_panels (is_new : Bool) (tcs : List ToolCall) (st : RState) :
    (createPanels is_new tcs st).panels = st.panels ++ panelEntries is_new tcs := by
  induction tcs generalizing st with
  | nil => simp [createPanels, panelEntries]
  | cons tc tcs ih => simp [createPanels, panelEntries, ih]

/-- Witness for C10_theorem at concrete inputs. -/
theorem C10_witness :
    (processToolCalls true ["c1", "c2"] [⟨"c2", "g", "a2"⟩] (some "c1")
        [.tool "" "x"] initState =
      processToolCalls true ["c1", "c2"] [] (some "c1") []
        (writePanel (persist true (.tool "" "x") initState) "c1"
          (fun p => panelComplete (panelOut "x" p)))) ∧
    (∀ (cur0 : Option String) (tcid c' : String), tcid ≠ "" →
      (["c1", "c2"] : List String).contains tcid = true →
      processToolCalls true ["c1", "c2"] [⟨"c2", "g", "a2"⟩] cur0
          [.tool tcid c'] initState =
        processToolCalls true ["c1", "c2"] [] (some tcid) []
          (writePanel (persist true (.tool tcid c') initState) tcid
            (fun p => panelComplete (panelOut c' p)))) :=
  C10_theorem true ["c1", "c2"] "c1" ⟨"c2", "g", "a2"⟩ [] "x" [] initState
    (by decide)

/-! ## Claim C4 -/

@[simp] theorem addPops_panels (pid : String) (tcs : List ToolCall) (st : RState)
    (lp : List String) : (addPops pid tcs st lp).1.panels = st.panels := by
  rw [addPops_spec]

@[simp] theorem addPops_persisted (pid : String) (tcs : List ToolCall) (st : RState)
    (lp : List String) : (addPops pid tcs st lp).1.persisted = st.persisted := by
  rw [addPops_spec]

@[simp] theorem addPops_blocksRev (pid : String) (tcs : List ToolCall) (st : RState)
    (lp : List String) : (addPops pid tcs st lp).1.blocksRev = st.blocksRev := by
  rw [addPops_spec]

/-- The status-relevant projection of the panel store: key, state and
completion count of every panel, in order. -/
def panelMetas (ps : List (String × Panel)) : List (String × PanelState × Nat) :=
  ps.map (fun kp => (kp.1, kp.2.state, kp.2.completions))

/-- An update that touches neither state nor completion count leaves the
status projection unchanged. -/
theorem panelMetas_aupdate (ps : List (String × Panel)) (k : String)
    (f : Panel → Panel)
    (hf : ∀ p, (f p).state = p.state ∧ (f p).completions = p.completions) :
    panelMetas (aupdate ps k f) = panelMetas ps := by
  induction ps with
  | nil => rfl
  | cons kv rest ih =>
    obtain ⟨k', v⟩ := kv
    unfold aupdate
    by_cases h : k' = k
    · simp [panelMetas, h, (hf v).1, (hf v).2]
    · simpa [panelMetas, h] using ih

/-- While no finish signal has been seen, the nested handler loop runs the
stream dry: it returns the exhaustion exception and the state and
completion count of every panel are untouched. -/
theorem handleLoop_stuck (is_new : Bool) (statusId : Option String) (cur : Msg)
    (lp : List String) (rest : List Msg) (st : RState)
    (hcur : isFinished cur = false) (h : ∀ m ∈ rest, isFinished m = false) :
    (handleLoop is_new statusId cur lp rest st).1 = .exhausted ∧
    panelMetas (handleLoop is_new statusId cur lp rest st).2.1.panels =
      panelMetas st.panels := by
  induction rest generalizing cur lp st with
  | nil => simp [handleLoop, hcur]
  | cons sub rest' ih =>
    have hsub : isFinished sub = false := h sub (List.mem_cons_self sub rest')
    have hrest' : ∀ m ∈ rest', isFinished m = false :=
      fun m hm => h m (List.mem_cons_of_mem sub hm)
    rw [handleLoop]
    simp only [hcur, Bool.false_eq_true, if_false]
    by_cases hb : (sub.type == "tool" && lp.contains (sub.toolCallId.getD "")) = true
    · rw [if_pos hb]
      refine ⟨(ih sub _ _ hsub hrest').1, ?_⟩
      rw [(ih sub _ _ hsub hrest').2]
      simp
    · rw [if_neg hb]
      cases statusId with
      | none =>
        refine ⟨(ih sub _ _ hsub hrest').1, ?_⟩
        rw [(ih sub _ _ hsub hrest').2]
        simp
      | some pid =>
        dsimp only
        rw [addPops_spec]
        refine ⟨(ih sub _ _ hsub hrest').1, ?_⟩
        rw [(ih sub _ _ hsub hrest').2]
        by_cases hc : sub.content = "" <;>
          simp [hc, panelMetas_aupdate _ _ (panelOut sub.content) (fun p => ⟨rfl, rfl⟩)]

/-- Claim C4, amended: if the stream is exhausted while the nested handler
is still waiting for a finish signal (every remaining message has
`finish_reason` absent or `"tool_calls"`), the handler exits via the
stream-exhaustion exception of the defaultless `anext` — which propagates,
rather than "no exception is raised" — and every panel is left
non-terminal: no panel's state or completion count changes, so a running
hand-off panel is still running. -/
theorem C4_theorem (is_new : Bool) (localIds : List String) (rest : List Msg)
    (st : RState)
    (h : ∀ m ∈ rest, m.finishReason = none ∨ m.finishReason = some "tool_calls") :
    (handle_agent_msgs is_new localIds rest st).1 = .exhausted ∧
    panelMetas (handle_agent_msgs is_new localIds rest st).2.1.panels =
      panelMetas st.panels := by
  have h' : ∀ m ∈ rest, isFinished m = false := by
    intro m hm
    rcases h m hm with h1 | h1 <;> simp [isFinished, h1]
  cases rest with
  | nil => simp [handle_agent_msgs]
  | cons first rest' =>
    have hf : isFinished first = false := h' first (List.mem_cons_self first rest')
    have hr : ∀ m ∈ rest', isFinished m = false :=
      fun m hm => h' m (List.mem_cons_of_mem first hm)
    rw [handle_agent_msgs]
    refine ⟨(handleLoop_stuck _ _ _ _ _ _ hf hr).1, ?_⟩
    rw [(handleLoop_stuck _ _ _ _ _ _ hf hr).2]
    cases htc : first.toolCallId with
    | none => simp [htc]
    | some i =>
      by_cases hmem : i ∈ localIds <;> by_cases hc : first.content = "" <;>
        simp [htc, hmem, hc,
          panelMetas_aupdate _ _ (panelOut first.content) (fun p => ⟨rfl, rfl⟩)]

/-- Witness for C4_theorem: a nested stream that never carries a finish
signal other than `"tool_calls"`. -/
theorem C4_witness :
    (∀ m ∈ ([.tool "c1" "ok", .ai "x" [] (some "tool_calls")] : List Msg),
      m.finishReason = none ∨ m.finishReason = some "tool_calls") ∧
    (handle_agent_msgs true ["c1"]
        [.tool "c1" "ok", .ai "x" [] (some "tool_calls")] initState).1 = .exhausted ∧
    panelMetas (handle_agent_msgs true ["c1"]
        [.tool "c1" "ok", .ai "x" [] (some "tool_calls")] initState).2.1.panels =
      panelMetas initState.panels :=
  ⟨by decide,
   C4_theorem true ["c1"] [.tool "c1" "ok", .ai "x" [] (some "tool_calls")]
     initState (by decide)⟩

/-! ## Claim C9 -/

/-- Claim C9, confirmed: for every well-formed adjacent pair of a
non-hand-off tool call and a `ToolResult` sharing its id, reduced with
`mark_as_new = true`, the panel registered for that id ends complete with
exactly one completion (having been created `running`) and its output slot
equals the result content; both messages are persisted in order. -/
theorem C9_theorem (c : String) (tc : ToolCall) (fin : Option String) (out : String)
    (h : isHandoff tc.name = false) :
    (draw_messages [.ai c [tc] fin, .tool tc.id out] true).1 = .ok ∧
    alookup (draw_messages [.ai c [tc] fin, .tool tc.id out] true).2.1.panels tc.id =
      some ⟨tc.name, tc.args, [out], .complete, 1⟩ ∧
    (draw_messages [.ai c [tc] fin, .tool tc.id out] true).2.1.persisted =
      [.ai c [tc] fin, .tool tc.id out] := by
  by_cases hid : tc.id = "" <;>
    simp [draw_messages, drawLoop, processToolCalls, initState, panelEntries,
      aupdate, alookup, panelOut, panelComplete, apply_ite, h, hid]

/-- Witness for C9_theorem at a concrete pair. -/
theorem C9_witness :
    (draw_messages [.ai "hi" [⟨"c9", "search", "{q}"⟩] none, .tool "c9" "res"] true).1
        = .ok ∧
    alookup (draw_messages [.ai "hi" [⟨"c9", "search", "{q}"⟩] none,
        .tool "c9" "res"] true).2.1.panels "c9" =
      some ⟨"search", "{q}", ["res"], .complete, 1⟩ ∧
    (draw_messages [.ai "hi" [⟨"c9", "search", "{q}"⟩] none,
        .tool "c9" "res"] true).2.1.persisted =
      [.ai "hi" [⟨"c9", "search", "{q}"⟩] none, .tool "c9" "res"] :=
  C9_theorem "hi" ⟨"c9", "search", "{q}"⟩ none "res" (by decide)

/-! ## Claim C7 -/

/-- An `AiTurn` carrying no tool calls. -/
def aiNoCall : Msg → Bool
  | .ai _ [] _ => true
  | _ => false

/-- The text items a run of messages writes into an AI block, in order. -/
def textItems : List Msg → List AItem
  | [] => []
  | .ai c _ _ :: rest =>
    if c ≠ "" then .text (normalize c) :: textItems rest else textItems rest
  | _ :: rest => textItems rest

/-- Run of plain AI messages starting inside an open AI block: everything
coalesces into that block and each message is persisted once, in order. -/
theorem drawLoop_aiRun (evs : List Msg) (items : List AItem) (bs : List Block)
    (panels : List (String × Panel)) (pops : List (String × Popover))
    (per : List Msg) (h : ∀ m ∈ evs, aiNoCall m = true) :
    drawLoop true evs .ai ⟨.ai items :: bs, panels, pops, per⟩ =
      (.ok, ⟨.ai ((textItems evs).reverse ++ items) :: bs, panels, pops,
        per ++ evs⟩, []) := by
  induction evs generalizing items per with
  | nil => simp [drawLoop, textItems]
  | cons m rest ih =>
    have hm : aiNoCall m = true := h m (List.mem_cons_self m rest)
    have hrest : ∀ x ∈ rest, aiNoCall x = true :=
      fun x hx => h x (List.mem_cons_of_mem m hx)
    cases m with
    | ai c tcs fin =>
      cases tcs with
      | nil =>
        by_cases hc : c = "" <;>
          simp [drawLoop, aiPrep, persist, pushItem, textItems, Msg.content, hc, ih _ _ hrest]
      | cons a b => simp [aiNoCall] at hm
    | human c => simp [aiNoCall] at hm
    | tool a b => simp [aiNoCall] at hm
    | other c => simp [aiNoCall] at hm

/-- Claim C7, confirmed: a non-empty stream of consecutive `AiTurn`
messages with no tool calls is coalesced into exactly one AI rendering
block (whose text items are the non-empty contents in order), creates no
panels, and each message is persisted exactly once, in stream order. -/
theorem C7_theorem (evs : List Msg) (hne : evs ≠ [])
    (h : ∀ m ∈ evs, aiNoCall m = true) :
    draw_messages evs true =
      (.ok, ⟨[.ai (textItems evs).reverse], [], [], evs⟩, []) := by
  cases evs with
  | nil => exact absurd rfl hne
  | cons m rest =>
    have hm : aiNoCall m = true := h m (List.mem_cons_self m rest)
    have hrest : ∀ x ∈ rest, aiNoCall x = true :=
      fun x hx => h x (List.mem_cons_of_mem m hx)
    cases m with
    | ai c tcs fin =>
      cases tcs with
      | nil =>
        by_cases hc : c = "" <;>
          simp [draw_messages, drawLoop, aiPrep, persist, initState, startAiBlock,
            pushItem, textItems, Msg.content, hc, drawLoop_aiRun _ _ _ _ _ _ hrest]
      | cons a b => simp [aiNoCall] at hm
    | human c => simp [aiNoCall] at hm
    | tool a b => simp [aiNoCall] at hm
    | other c => simp [aiNoCall] at hm

/-- Witness for C7_theorem on a concrete two-message AI run. -/
theorem C7_witness :
    draw_messages [.ai "a" [] none, .ai "" [] none] true =
      (.ok, ⟨[.ai (textItems [.ai "a" [] none, .ai "" [] none]).reverse],
        [], [], [.ai "a" [] none, .ai "" [] none]⟩, []) :=
  C7_theorem [.ai "a" [] none, .ai "" [] none] (by decide) (by decide)

/-! ## Claim C8 -/

theorem startsWith_iff (p s : List Char) :
    startsWith p s = true ↔ ∃ r, s = p ++ r := by
  induction p generalizing s with
  | nil => simp [startsWith]
  | cons a as ih =>
    cases s with
    | nil => simp [startsWith]
    | cons b bs =>
      simp only [startsWith, Bool.and_eq_true, beq_iff_eq, ih, List.cons_append]
      constructor
      · rintro ⟨rfl, r, rfl⟩
        exact ⟨r, rfl⟩
      · rintro ⟨r, hr⟩
        injection hr with h1 h2
        exact ⟨h1.symm, r, h2⟩

theorem hasSub_iff (p s : List Char) :
    hasSub p s = true ↔ ∃ l r, s = l ++ p ++ r := by
  induction s with
  | nil =>
    simp only [hasSub, startsWith_iff]
    constructor
    · rintro ⟨r, hr⟩
      refine ⟨[], r, by simpa using hr⟩
    · rintro ⟨l, r, hr⟩
      refine ⟨r, ?_⟩
      rcases List.append_eq_nil.mp (List.append_eq_nil.mp hr.symm).1 with ⟨h1, h2⟩
      simp_all
  | cons ch cs ih =>
    simp only [hasSub, Bool.or_eq_true, startsWith_iff, ih]
    constructor
    · rintro (⟨r, hr⟩ | ⟨l, r, hr⟩)
      · exact ⟨[], r, by simpa using hr⟩
      · exact ⟨ch :: l, r, by simp [hr]⟩
    · rintro ⟨l, r, hr⟩
      cases l with
      | nil => exact Or.inl ⟨r, by simpa using hr⟩
      | cons x xs =>
        right
        injection hr with h1 h2
        exact ⟨xs, r, h2⟩

/-- Claim C8, confirmed.  First conjunct: once the first hand-off call of
an `AiTurn` is reached, the tool calls after it are never processed (the
reduction of the call list equals the reduction with them deleted).
Second conjunct: reaching a hand-off call invokes `handle_agent_msgs` on
the remaining stream.  Third conjunct: a call is treated as a hand-off iff
its name contains the substring `"transfer_to"`. -/
theorem C8_theorem (is_new : Bool) (localIds : List String) (pre : List ToolCall)
    (tc : ToolCall) (post : List ToolCall) (cur : Option String)
    (rest : List Msg) (st : RState)
    (hpre : ∀ x ∈ pre, isHandoff x.name = false)
    (htc : isHandoff tc.name = true) :
    processToolCalls is_new localIds (pre ++ tc :: post) cur rest st =
      processToolCalls is_new localIds (pre ++ [tc]) cur rest st ∧
    processToolCalls is_new localIds (tc :: post) cur rest st =
      handle_agent_msgs is_new localIds rest st ∧
    ∀ name : String, isHandoff name = true ↔
      ∃ l r, name.data = l ++ "transfer_to".data ++ r := by
  refine ⟨?_, by simp [processToolCalls, htc], fun name => hasSub_iff _ _⟩
  induction pre generalizing cur rest st with
  | nil => simp [processToolCalls, htc]
  | cons x pre' ih =>
    have hx : isHandoff x.name = false := hpre x (List.mem_cons_self x pre')
    have hpre' : ∀ y ∈ pre', isHandoff y.name = false :=
      fun y hy => hpre y (List.mem_cons_of_mem x hy)
    cases rest with
    | nil => simp [processToolCalls, hx]
    | cons r rest' =>
      cases r with
      | tool tcid c =>
        by_cases h1 : tcid = ""
        · subst h1
          simp only [List.cons_append, processToolCalls, hx, Bool.false_eq_true,
            if_false, ne_eq, not_true_eq_false, reduceIte]
          exact ih _ _ _ hpre'
        · by_cases h2 : tcid ∈ localIds
          · have h2' : localIds.contains tcid = true := by simpa using h2
            simp only [List.cons_append, processToolCalls, hx, Bool.false_eq_true,
              if_false, ne_eq, h1, not_false_eq_true, h2', reduceIte]
            exact ih _ _ _ hpre'
          · simp [processToolCalls, hx, h1, h2]
      | human c => simp [processToolCalls, hx, Msg.type]
      | ai c tcs2 f => simp [processToolCalls, hx, Msg.type]
      | other c => simp [processToolCalls, hx, Msg.type]

/-- Witness for C8_theorem at a concrete call list. -/
theorem C8_witness :
    processToolCalls true ["a", "h", "b"]
        [⟨"a", "look", "{}"⟩, ⟨"h", "transfer_to_billing", "{}"⟩, ⟨"b", "late", "{}"⟩]
        (some "b") [.tool "a" "r"] initState =
      processToolCalls true ["a", "h", "b"]
        [⟨"a", "look", "{}"⟩, ⟨"h", "transfer_to_billing", "{}"⟩]
        (some "b") [.tool "a" "r"] initState ∧
    processToolCalls true ["a", "h", "b"]
        [⟨"h", "transfer_to_billing", "{}"⟩, ⟨"b", "late", "{}"⟩]
        (some "b") [.tool "a" "r"] initState =
      handle_agent_msgs true ["a", "h", "b"] [.tool "a" "r"] initState ∧
    ∀ name : String, isHandoff name = true ↔
      ∃ l r, name.data = l ++ "transfer_to".data ++ r :=
  C8_theorem true ["a", "h", "b"] [⟨"a", "look", "{}"⟩]
    ⟨"h", "transfer_to_billing", "{}"⟩ [⟨"b", "late", "{}"⟩]
    (some "b") [.tool "a" "r"] initState (by decide) (by decide)

/-! ## Claim C3 -/

/-- Every message the nested handler loop consumes is appended to the
persisted list, in consumption order (`mark_as_new = true`), and the
unconsumed remainder is a suffix of the stream. -/
theorem handleLoop_delta (statusId : Option String) (cur : Msg)
    (lp : List String) (rest : List Msg) (st : RState) :
    ∃ c, rest = c ++ (handleLoop true statusId cur lp rest st).2.2 ∧
      (handleLoop true statusId cur lp rest st).2.1.persisted = st.persisted ++ c := by
  induction rest generalizing cur lp st with
  | nil =>
    refine ⟨[], ?_, ?_⟩ <;> rw [handleLoop] <;> split <;> simp
  | cons sub rest' ih =>
    by_cases hfin : isFinished cur = true
    · refine ⟨[], ?_, ?_⟩ <;> rw [handleLoop, if_pos hfin] <;> simp
    · have key : ∀ (lp' : List String) (st' : RState),
          st'.persisted = st.persisted ++ [sub] →
          ∃ c, sub :: rest' = c ++ (handleLoop true statusId sub lp' rest' st').2.2 ∧
            (handleLoop true statusId sub lp' rest' st').2.1.persisted =
              st.persisted ++ c := by
        intro lp' st' hst'
        obtain ⟨c, h1, h2⟩ := ih sub lp' st'
        refine ⟨sub :: c, ?_, ?_⟩
        · rw [List.cons_append, ← h1]
        · rw [h2, hst']
          simp
      rw [handleLoop, if_neg hfin]
      by_cases hb : (sub.type == "tool" && lp.contains (sub.toolCallId.getD "")) = true
      · rw [if_pos hb]
        exact key _ _ (by simp)
      · rw [if_neg hb]
        cases statusId with
        | none => exact key _ _ (by simp)
        | some pid =>
          dsimp only
          rw [addPops_spec]
          refine key _ _ ?_
          by_cases hc : sub.content = "" <;> simp [hc]

/-- Every message `handle_agent_msgs` consumes — including the first nested
message — is appended to the persisted list, in consumption order. -/
theorem handle_agent_msgs_delta (localIds : List String) (rest : List Msg)
    (st : RState) :
    ∃ c, rest = c ++ (handle_agent_msgs true localIds rest st).2.2 ∧
      (handle_agent_msgs true localIds rest st).2.1.persisted = st.persisted ++ c := by
  cases rest with
  | nil => refine ⟨[], ?_, ?_⟩ <;> rw [handle_agent_msgs] <;> simp
  | cons first rest' =>
    have key : ∀ (sid : Option String) (st' : RState),
        st'.persisted = st.persisted ++ [first] →
        ∃ c, first :: rest' = c ++ (handleLoop true sid first [] rest' st').2.2 ∧
          (handleLoop true sid first [] rest' st').2.1.persisted =
            st.persisted ++ c := by
      intro sid st' hst'
      obtain ⟨c, h1, h2⟩ := handleLoop_delta sid first [] rest' st'
      refine ⟨first :: c, ?_, ?_⟩
      · rw [List.cons_append, ← h1]
      · rw [h2, hst']
        simp
    rw [handle_agent_msgs]
    refine key _ _ ?_
    cases htc : first.toolCallId with
    | none => simp [htc]
    | some i =>
      by_cases hmem : i ∈ localIds <;> by_cases hc : first.content = "" <;>
        simp [htc, hmem, hc]

/-- Reaching a hand-off call delegates to `handle_agent_msgs` outright. -/
theorem processToolCalls_handoff (is_new : Bool) (l : List String) (tc : ToolCall)
    (tcs : List ToolCall) (cur : Option String) (rest : List Msg) (st : RState)
    (hh : isHandoff tc.name = true) :
    processToolCalls is_new l (tc :: tcs) cur rest st =
      handle_agent_msgs is_new l rest st := by
  cases rest with
  | nil => rw [processToolCalls, if_pos hh]
  | cons r rest' =>
    cases r with
    | tool tcid c => rw [processToolCalls, if_pos hh]
    | human c =>
      rw [processToolCalls, if_pos hh]
      exact fun tcid c1 h => Msg.noConfusion h
    | ai c t f =>
      rw [processToolCalls, if_pos hh]
      exact fun tcid c1 h => Msg.noConfusion h
    | other c =>
      rw [processToolCalls, if_pos hh]
      exact fun tcid c1 h => Msg.noConfusion h

/-- Outside the unexpected-result abort (whose pulled message is dropped),
every message the second tool-call pass consumes is appended to the
persisted list, in consumption order. -/
theorem processToolCalls_delta (localIds : List String) (tcs : List ToolCall)
    (cur : Option String) (rest : List Msg) (st : RState)
    (hno : ∀ t, (processToolCalls true localIds tcs cur rest st).1 ≠
      .unexpectedResult t) :
    ∃ c, rest = c ++ (processToolCalls true localIds tcs cur rest st).2.2 ∧
      (processToolCalls true localIds tcs cur rest st).2.1.persisted =
        st.persisted ++ c := by
  induction tcs generalizing cur rest st with
  | nil => refine ⟨[], ?_, ?_⟩ <;> rw [processToolCalls] <;> simp
  | cons tc tcs ih =>
    by_cases hh : isHandoff tc.name = true
    · rw [processToolCalls_handoff _ _ _ _ _ _ _ hh]
      exact handle_agent_msgs_delta localIds rest st
    · cases rest with
      | nil =>
        refine ⟨[], ?_, ?_⟩ <;> rw [processToolCalls, if_neg hh] <;> simp
      | cons r rest' =>
        cases r with
        | tool tcid c =>
          have key : ∀ (cur' : Option String) (st' : RState),
              st'.persisted = st.persisted ++ [Msg.tool tcid c] →
              (∀ t, (processToolCalls true localIds tcs cur' rest' st').1 ≠
                .unexpectedResult t) →
              ∃ cc, Msg.tool tcid c :: rest' =
                  cc ++ (processToolCalls true localIds tcs cur' rest' st').2.2 ∧
                (processToolCalls true localIds tcs cur' rest' st').2.1.persisted =
                  st.persisted ++ cc := by
            intro cur' st' hst' hno'
            obtain ⟨cc, k1, k2⟩ := ih cur' rest' st' hno'
            refine ⟨Msg.tool tcid c :: cc, ?_, ?_⟩
            · rw [List.cons_append, ← k1]
            · rw [k2, hst']
              simp
          rw [processToolCalls, if_neg hh] at hno ⊢
          dsimp only at hno ⊢
          by_cases h1 : tcid = ""
          · subst h1
            rw [if_neg (by simp)] at hno ⊢
            refine key _ _ ?_ hno
            cases cur <;> simp
          · rw [if_pos h1] at hno ⊢
            by_cases h2 : localIds.contains tcid = true
            · rw [if_pos h2] at hno ⊢
              exact key _ _ (by simp) hno
            · rw [if_neg h2] at hno ⊢
              refine ⟨[Msg.tool tcid c], ?_, ?_⟩ <;> simp
        | human c =>
          rw [processToolCalls, if_neg hh] at hno
          · exact absurd rfl (hno "human")
          · exact fun tcid c1 h => Msg.noConfusion h
        | ai c tcs2 f =>
          rw [processToolCalls, if_neg hh] at hno
          · exact absurd rfl (hno "ai")
          · exact fun tcid c1 h => Msg.noConfusion h
        | other c =>
          rw [processToolCalls, if_neg hh] at hno
          · exact absurd rfl (hno "other")
          · exact fun tcid c1 h => Msg.noConfusion h

/-- In a `mark_as_new = true` reduction pass that ends without an abort, on
a stream with no human messages, the persisted delta is exactly the
consumed stream, in order, and the stream is consumed to exhaustion. -/
theorem drawLoop_delta (n : Nat) (evs : List Msg) (lastK : LastK) (st : RState)
    (hn : evs.length ≤ n)
    (hh : ∀ m ∈ evs, m.isHumanMsg = false)
    (hok : (drawLoop true evs lastK st).1 = .ok) :
    (drawLoop true evs lastK st).2.1.persisted = st.persisted ++ evs ∧
    (drawLoop true evs lastK st).2.2 = [] := by
  induction n generalizing evs lastK st with
  | zero =>
    have he : evs = [] := List.length_eq_zero.mp (Nat.le_zero.mp hn)
    subst he
    simp [drawLoop]
  | succ n ih =>
    cases evs with
    | nil => simp [drawLoop]
    | cons m rest =>
      have hm : m.isHumanMsg = false := hh m (List.mem_cons_self m rest)
      have hrest : ∀ x ∈ rest, x.isHumanMsg = false :=
        fun x hx => hh x (List.mem_cons_of_mem m hx)
      have hlen : rest.length ≤ n := by
        have := hn
        simp only [List.length_cons] at this
        omega
      cases m with
      | human c => simp [Msg.isHumanMsg] at hm
      | tool i c =>
        rw [drawLoop] at hok
        · simp [Msg.type] at hok
        · exact fun c1 h => Msg.noConfusion h
        · exact fun c1 t f h => Msg.noConfusion h
      | other c =>
        rw [drawLoop] at hok
        · simp [Msg.type] at hok
        · exact fun c1 h => Msg.noConfusion h
        · exact fun c1 t f h => Msg.noConfusion h
      | ai c tcs fin =>
        rw [drawLoop] at hok ⊢
        by_cases he : tcs.isEmpty
        · rw [if_pos he] at hok ⊢
          obtain ⟨k1, k2⟩ := ih rest .ai _ hlen hrest hok
          refine ⟨?_, k2⟩
          rw [k1]
          simp
        · rw [if_neg he] at hok ⊢
          set res := processToolCalls true (tcs.map ToolCall.id) tcs
            (tcs.getLast?.map ToolCall.id) rest
            (createPanels true tcs (aiPrep true (.ai c tcs fin) lastK st)) with hres
          by_cases hok1 : res.1 = .ok
          · rw [if_pos hok1] at hok ⊢
            have hno : ∀ t, res.1 ≠ .unexpectedResult t := by
              rw [hok1]
              intro t ht
              exact Outcome.noConfusion ht
            obtain ⟨cc, d1, d2⟩ := processToolCalls_delta (tcs.map ToolCall.id) tcs
              (tcs.getLast?.map ToolCall.id) rest
              (createPanels true tcs (aiPrep true (.ai c tcs fin) lastK st))
              (by rw [← hres]; exact hno)
            rw [← hres] at d1 d2
            have hlen2 : res.2.2.length ≤ n := by
              rw [hres]
              exact le_trans (processToolCalls_len ..) hlen
            have hrest2 : ∀ x ∈ res.2.2, x.isHumanMsg = false := by
              intro x hx
              refine hrest x ?_
              rw [d1]
              exact List.mem_append_right cc hx
            obtain ⟨k1, k2⟩ := ih res.2.2 .ai res.2.1 hlen2 hrest2 hok
            refine ⟨?_, k2⟩
            rw [k1, d2]
            simp [d1]
          · rw [if_neg hok1] at hok
            exact absurd hok hok1

/-- Claim C3 is false as stated: a top-level `HumanText` message is consumed
and drawn but never appended to the persisted list (the human arm, lines
232-235, has no `st.session_state.messages.append`), so the persisted delta
omits it. -/
theorem C3_counterexample :
    (draw_messages [.human "hi"] true).1 = .ok ∧
    (draw_messages [.human "hi"] true).2.1.persisted = [] := by
  decide

/-! ## Branch-level step equations -/

theorem handleLoop_fin (is_new : Bool) (statusId : Option String) (cur : Msg)
    (lp : List String) (rest : List Msg) (st : RState)
    (hfin : isFinished cur = true) :
    handleLoop is_new statusId cur lp rest st = (.ok, completeOpt statusId st, rest) := by
  cases rest with
  | nil => rw [handleLoop, if_pos hfin]
  | cons sub rest' => rw [handleLoop, if_pos hfin]

theorem handleLoop_empty (is_new : Bool) (statusId : Option String) (cur : Msg)
    (lp : List String) (st : RState) (hfin : isFinished cur = false) :
    handleLoop is_new statusId cur lp [] st = (.exhausted, st, []) := by
  rw [handleLoop, if_neg (by simp [hfin])]

theorem handleLoop_pop (is_new : Bool) (statusId : Option String) (cur sub : Msg)
    (lp : List String) (rest' : List Msg) (st : RState)
    (hfin : isFinished cur = false)
    (hb : (sub.type == "tool" && lp.contains (sub.toolCallId.getD "")) = true) :
    handleLoop is_new statusId cur lp (sub :: rest') st =
      handleLoop is_new statusId sub lp rest'
        (writePop (persist is_new sub st) (sub.toolCallId.getD "") sub.content) := by
  rw [handleLoop, if_neg (by simp [hfin]), if_pos hb]

theorem handleLoop_gen_none (is_new : Bool) (cur sub : Msg) (lp : List String)
    (rest' : List Msg) (st : RState) (hfin : isFinished cur = false)
    (hb : (sub.type == "tool" && lp.contains (sub.toolCallId.getD "")) = false) :
    handleLoop is_new none cur lp (sub :: rest') st =
      handleLoop is_new none sub lp rest' (persist is_new sub st) := by
  rw [handleLoop, if_neg (by simp [hfin]),
    if_neg (by rw [hb]; exact Bool.false_ne_true)]

theorem handleLoop_gen_some (is_new : Bool) (pid : String) (cur sub : Msg)
    (lp : List String) (rest' : List Msg) (st : RState)
    (hfin : isFinished cur = false)
    (hb : (sub.type == "tool" && lp.contains (sub.toolCallId.getD "")) = false) :
    handleLoop is_new (some pid) cur lp (sub :: rest') st =
      handleLoop is_new (some pid) sub
        (addPops pid sub.toolCalls
          (if sub.content ≠ "" then
            writePanel (persist is_new sub st) pid (panelOut sub.content)
          else persist is_new sub st) lp).2 rest'
        (addPops pid sub.toolCalls
          (if sub.content ≠ "" then
            writePanel (persist is_new sub st) pid (panelOut sub.content)
          else persist is_new sub st) lp).1 := by
  rw [handleLoop, if_neg (by simp [hfin]),
    if_neg (by rw [hb]; exact Bool.false_ne_true)]

theorem processToolCalls_empty (is_new : Bool) (l : List String)
    (cur : Option String) (rest : List Msg) (st : RState) :
    processToolCalls is_new l [] cur rest st = (.ok, st, rest) := by
  rw [processToolCalls]

theorem processToolCalls_exhaust (is_new : Bool) (l : List String) (tc : ToolCall)
    (tcs : List ToolCall) (cur : Option String) (st : RState)
    (hh : isHandoff tc.name = false) :
    processToolCalls is_new l (tc :: tcs) cur [] st = (.exhausted, st, []) := by
  rw [processToolCalls, if_neg (by simp [hh])]

theorem processToolCalls_truthy (is_new : Bool) (l : List String) (tc : ToolCall)
    (tcs : List ToolCall) (cur : Option String) (tcid c : String)
    (rest' : List Msg) (st : RState) (hh : isHandoff tc.name = false)
    (h1 : tcid ≠ "") (h2 : l.contains tcid = true) :
    processToolCalls is_new l (tc :: tcs) cur (.tool tcid c :: rest') st =
      processToolCalls is_new l tcs (some tcid) rest'
        (writePanel (persist is_new (.tool tcid c) st) tcid
          (fun p => panelComplete (panelOut c p))) := by
  rw [processToolCalls, if_neg (by simp [hh])]
  dsimp only
  rw [if_pos h1, if_pos h2]

theorem processToolCalls_keyerr (is_new : Bool) (l : List String) (tc : ToolCall)
    (tcs : List ToolCall) (cur : Option String) (tcid c : String)
    (rest' : List Msg) (st : RState) (hh : isHandoff tc.name = false)
    (h1 : tcid ≠ "") (h2 : l.contains tcid = false) :
    processToolCalls is_new l (tc :: tcs) cur (.tool tcid c :: rest') st =
      (.keyError tcid, persist is_new (.tool tcid c) st, rest') := by
  rw [processToolCalls, if_neg (by simp [hh])]
  dsimp only
  rw [if_pos h1, if_neg (by rw [h2]; exact Bool.false_ne_true)]

theorem processToolCalls_falsy (is_new : Bool) (l : List String) (tc : ToolCall)
    (tcs : List ToolCall) (cur : Option String) (c : String) (rest' : List Msg)
    (st : RState) (hh : isHandoff tc.name = false) :
    processToolCalls is_new l (tc :: tcs) cur (.tool "" c :: rest') st =
      processToolCalls is_new l tcs cur rest'
        (match cur with
         | some pid =>
           writePanel (persist is_new (.tool "" c) st) pid
             (fun p => panelComplete (panelOut c p))
         | none => persist is_new (.tool "" c) st) := by
  rw [processToolCalls, if_neg (by simp [hh])]
  dsimp only
  rw [if_neg (by simp)]

theorem processToolCalls_badresult (is_new : Bool) (l : List String) (tc : ToolCall)
    (tcs : List ToolCall) (cur : Option String) (r : Msg) (rest' : List Msg)
    (st : RState) (hh : isHandoff tc.name = false)
    (hr : ∀ tcid c, r ≠ Msg.tool tcid c) :
    processToolCalls is_new l (tc :: tcs) cur (r :: rest') st =
      (.unexpectedResult r.type, st, rest') := by
  cases r with
  | tool tcid c => exact absurd rfl (hr tcid c)
  | human c =>
    rw [processToolCalls, if_neg (by simp [hh])]
    exact fun tcid c1 h => Msg.noConfusion h
  | ai c t2 f =>
    rw [processToolCalls, if_neg (by simp [hh])]
    exact fun tcid c1 h => Msg.noConfusion h
  | other c =>
    rw [processToolCalls, if_neg (by simp [hh])]
    exact fun tcid c1 h => Msg.noConfusion h

theorem drawLoop_nil (is_new : Bool) (k : LastK) (st : RState) :
    drawLoop is_new [] k st = (.ok, st, []) := by
  rw [drawLoop]

theorem drawLoop_human (is_new : Bool) (c : String) (rest : List Msg) (k : LastK)
    (st : RState) :
    drawLoop is_new (.human c :: rest) k st =
      drawLoop is_new rest .human (startHuman c st) := by
  rw [drawLoop]

theorem drawLoop_tool (is_new : Bool) (i c : String) (rest : List Msg) (k : LastK)
    (st : RState) :
    drawLoop is_new (.tool i c :: rest) k st = (.unexpectedType "tool", st, rest) := by
  rw [drawLoop]
  · rfl
  · exact fun c1 h => Msg.noConfusion h
  · exact fun c1 t f h => Msg.noConfusion h

theorem drawLoop_other (is_new : Bool) (c : String) (rest : List Msg) (k : LastK)
    (st : RState) :
    drawLoop is_new (.other c :: rest) k st = (.unexpectedType "other", st, rest) := by
  rw [drawLoop]
  · rfl
  · exact fun c1 h => Msg.noConfusion h
  · exact fun c1 t f h => Msg.noConfusion h

theorem drawLoop_ai_nocalls (is_new : Bool) (c : String) (tcs : List ToolCall)
    (fin : Option String) (rest : List Msg) (k : LastK) (st : RState)
    (he : tcs.isEmpty = true) :
    drawLoop is_new (.ai c tcs fin :: rest) k st =
      drawLoop is_new rest .ai (aiPrep is_new (.ai c tcs fin) k st) := by
  rw [drawLoop, if_pos he]

theorem drawLoop_ai_calls_ok (is_new : Bool) (c : String) (tcs : List ToolCall)
    (fin : Option String) (rest : List Msg) (k : LastK) (st : RState)
    (he : tcs.isEmpty = false)
    (hres : (processToolCalls is_new (tcs.map ToolCall.id) tcs
      (tcs.getLast?.map ToolCall.id) rest
      (createPanels is_new tcs (aiPrep is_new (.ai c tcs fin) k st))).1 = .ok) :
    drawLoop is_new (.ai c tcs fin :: rest) k st =
      drawLoop is_new
        (processToolCalls is_new (tcs.map ToolCall.id) tcs
          (tcs.getLast?.map ToolCall.id) rest
          (createPanels is_new tcs (aiPrep is_new (.ai c tcs fin) k st))).2.2 .ai
        (processToolCalls is_new (tcs.map ToolCall.id) tcs
          (tcs.getLast?.map ToolCall.id) rest
          (createPanels is_new tcs (aiPrep is_new (.ai c tcs fin) k st))).2.1 := by
  rw [drawLoop, if_neg (by simp [he])]
  dsimp only
  rw [if_pos hres]

theorem drawLoop_ai_calls_err (is_new : Bool) (c : String) (tcs : List ToolCall)
    (fin : Option String) (rest : List Msg) (k : LastK) (st : RState)
    (he : tcs.isEmpty = false)
    (hres : ¬ (processToolCalls is_new (tcs.map ToolCall.id) tcs
      (tcs.getLast?.map ToolCall.id) rest
      (createPanels is_new tcs (aiPrep is_new (.ai c tcs fin) k st))).1 = .ok) :
    drawLoop is_new (.ai c tcs fin :: rest) k st =
      processToolCalls is_new (tcs.map ToolCall.id) tcs
        (tcs.getLast?.map ToolCall.id) rest
        (createPanels is_new tcs (aiPrep is_new (.ai c tcs fin) k st)) := by
  rw [drawLoop, if_neg (by simp [he])]
  dsimp only
  rw [if_neg hres]

@[simp] theorem isHumanMsg_human (c : String) : (Msg.human c).isHumanMsg = true := rfl

@[simp] theorem isHumanMsg_ai (c : String) (tcs : List ToolCall) (f : Option String) :
    (Msg.ai c tcs f).isHumanMsg = false := rfl

@[simp] theorem isHumanMsg_tool (i c : String) : (Msg.tool i c).isHumanMsg = false := rfl

@[simp] theorem isHumanMsg_other (c : String) : (Msg.other c).isHumanMsg = false := rfl

/-- Mixed-stream persistence: in a `mark_as_new = true` pass that completes
without an abort, the stream is consumed to exhaustion and the persisted
delta is an order-preserving sublist of the stream that retains every
non-human message (deleting the human messages from the delta and from the
stream yields the same list): only top-level human messages are dropped,
everything else is appended exactly once, in consumption order. -/
theorem drawLoop_delta_mixed (n : Nat) (evs : List Msg) (lastK : LastK)
    (st : RState) (hn : evs.length ≤ n)
    (hok : (drawLoop true evs lastK st).1 = .ok) :
    ∃ d, (drawLoop true evs lastK st).2.1.persisted = st.persisted ++ d ∧
      d.Sublist evs ∧
      d.filter (fun m => !m.isHumanMsg) = evs.filter (fun m => !m.isHumanMsg) ∧
      (drawLoop true evs lastK st).2.2 = [] := by
  induction n generalizing evs lastK st with
  | zero =>
    have he : evs = [] := List.length_eq_zero.mp (Nat.le_zero.mp hn)
    subst he
    rw [drawLoop_nil]
    exact ⟨[], by simp, List.Sublist.refl _, rfl, rfl⟩
  | succ n ih =>
    cases evs with
    | nil =>
      rw [drawLoop_nil]
      exact ⟨[], by simp, List.Sublist.refl _, rfl, rfl⟩
    | cons m rest =>
      have hlen : rest.length ≤ n := by
        have := hn
        simp only [List.length_cons] at this
        omega
      cases m with
      | human c =>
        rw [drawLoop_human] at hok ⊢
        obtain ⟨d, k1, k2, k3, k4⟩ := ih rest .human _ hlen hok
        refine ⟨d, ?_, List.Sublist.cons _ k2, ?_, k4⟩
        · rw [k1]
          simp
        · simpa using k3
      | tool i c =>
        rw [drawLoop_tool] at hok
        simp at hok
      | other c =>
        rw [drawLoop_other] at hok
        simp at hok
      | ai c tcs fin =>
        by_cases he : tcs.isEmpty
        · rw [drawLoop_ai_nocalls _ _ _ _ _ _ _ he] at hok ⊢
          obtain ⟨d, k1, k2, k3, k4⟩ := ih rest .ai _ hlen hok
          refine ⟨.ai c tcs fin :: d, ?_, List.Sublist.cons₂ _ k2, ?_, k4⟩
          · rw [k1]
            simp
          · simp [List.filter_cons, k3]
        · have he' : tcs.isEmpty = false := by simpa using he
          by_cases hres : (processToolCalls true (tcs.map ToolCall.id) tcs
              (tcs.getLast?.map ToolCall.id) rest
              (createPanels true tcs (aiPrep true (.ai c tcs fin) lastK st))).1 = .ok
          · rw [drawLoop_ai_calls_ok _ _ _ _ _ _ _ he' hres] at hok ⊢
            obtain ⟨cc, d1, d2⟩ := processToolCalls_delta (tcs.map ToolCall.id) tcs
              (tcs.getLast?.map ToolCall.id) rest
              (createPanels true tcs (aiPrep true (.ai c tcs fin) lastK st))
              (by rw [hres]; intro t ht; exact Outcome.noConfusion ht)
            obtain ⟨d, k1, k2, k3, k4⟩ := ih _ .ai _
              (le_trans (processToolCalls_len true (tcs.map ToolCall.id) tcs
                (tcs.getLast?.map ToolCall.id) rest
                (createPanels true tcs (aiPrep true (.ai c tcs fin) lastK st))) hlen)
              hok
            refine ⟨.ai c tcs fin :: (cc ++ d), ?_, ?_, ?_, k4⟩
            · rw [k1, d2]
              simp
            · rw [d1]
              exact List.Sublist.cons₂ _ (List.Sublist.append (List.Sublist.refl cc) k2)
            · rw [d1]
              simp [List.filter_cons, List.filter_append, k3]
          · rw [drawLoop_ai_calls_err _ _ _ _ _ _ _ he' hres] at hok
            exact absurd hok hres

/-- Claim C3, amended: in a `mark_as_new = true` reduction that completes
without an abort, every consumed message except top-level `HumanText` is
appended to the persisted list exactly once, in consumption order, even
when human messages are interleaved in the stream: the persisted delta is
an order-preserving sublist of the stream, and erasing human messages from
the delta and from the stream yields the same list — so no non-human
message is omitted, duplicated or reordered.  In particular, for a stream
containing no human messages the persisted delta equals the stream. -/
theorem C3_theorem (evs : List Msg)
    (hok : (draw_messages evs true).1 = .ok) :
    (draw_messages evs true).2.1.persisted.Sublist evs ∧
    (draw_messages evs true).2.1.persisted.filter (fun m => !m.isHumanMsg) =
      evs.filter (fun m => !m.isHumanMsg) ∧
    ((∀ m ∈ evs, m.isHumanMsg = false) →
      (draw_messages evs true).2.1.persisted = evs) := by
  rw [draw_messages] at hok ⊢
  obtain ⟨d, k1, k2, k3, _⟩ :=
    drawLoop_delta_mixed evs.length evs .start initState le_rfl hok
  have hd : (drawLoop true evs .start initState).2.1.persisted = d := by
    rw [k1]
    simp [initState]
  rw [hd]
  refine ⟨k2, k3, ?_⟩
  intro hh
  have h1 : evs.filter (fun m => !m.isHumanMsg) = evs :=
    List.filter_eq_self.mpr (fun m hm => by simp [hh m hm])
  have h2 : d.filter (fun m => !m.isHumanMsg) = d :=
    List.filter_eq_self.mpr (fun m hm => by simp [hh m (k2.subset hm)])
  rw [← h2, k3, h1]

/-- Witness for C3_theorem on a concrete stream with humans interleaved:
the run completes, and the theorem yields the sublist and human-erasure
properties of its persisted delta. -/
theorem C3_witness :
    (draw_messages [.human "q", .ai "a" [] none, .human "r", .ai "b" [] none]
        true).2.1.persisted.Sublist
      [.human "q", .ai "a" [] none, .human "r", .ai "b" [] none] ∧
    (draw_messages [.human "q", .ai "a" [] none, .human "r", .ai "b" [] none]
        true).2.1.persisted.filter (fun m => !m.isHumanMsg) =
      ([.human "q", .ai "a" [] none, .human "r", .ai "b" [] none] :
        List Msg).filter (fun m => !m.isHumanMsg) ∧
    ((∀ m ∈ ([.human "q", .ai "a" [] none, .human "r", .ai "b" [] none] :
        List Msg), m.isHumanMsg = false) →
      (draw_messages [.human "q", .ai "a" [] none, .human "r", .ai "b" [] none]
        true).2.1.persisted =
        [.human "q", .ai "a" [] none, .human "r", .ai "b" [] none]) :=
  C3_theorem [.human "q", .ai "a" [] none, .human "r", .ai "b" [] none]
    (by decide)

/-! ## Claim C5 -/

/-- Once the handler loop has aborted for a reason other than stream
exhaustion, events beyond the abort point are never pulled: appending a
suffix changes nothing but the returned remainder. -/
theorem handleLoop_append (is_new : Bool) (statusId : Option String) (cur : Msg)
    (lp : List String) (rest suf : List Msg) (st : RState)
    (ho : (handleLoop is_new statusId cur lp rest st).1 ≠ .exhausted) :
    handleLoop is_new statusId cur lp (rest ++ suf) st =
      ((handleLoop is_new statusId cur lp rest st).1,
       (handleLoop is_new statusId cur lp rest st).2.1,
       (handleLoop is_new statusId cur lp rest st).2.2 ++ suf) := by
  induction rest generalizing cur lp st with
  | nil =>
    by_cases hfin : isFinished cur = true
    · rw [List.nil_append, handleLoop_fin _ _ _ _ _ _ hfin,
        handleLoop_fin _ _ _ _ _ _ hfin]
      rfl
    · rw [handleLoop_empty _ _ _ _ _ (by simpa using hfin)] at ho
      simp at ho
  | cons sub rest' ih =>
    by_cases hfin : isFinished cur = true
    · rw [List.cons_append, handleLoop_fin _ _ _ _ _ _ hfin,
        handleLoop_fin _ _ _ _ _ _ hfin]
      rfl
    · have hfin' : isFinished cur = false := by simpa using hfin
      by_cases hb : (sub.type == "tool" && lp.contains (sub.toolCallId.getD "")) = true
      · rw [handleLoop_pop _ _ _ _ _ _ _ hfin' hb] at ho
        rw [List.cons_append, handleLoop_pop _ _ _ _ _ _ _ hfin' hb,
          handleLoop_pop _ _ _ _ _ _ _ hfin' hb]
        exact ih _ _ _ ho
      · have hb' : (sub.type == "tool" && lp.contains (sub.toolCallId.getD "")) = false := by
          simpa using hb
        cases statusId with
        | none =>
          rw [handleLoop_gen_none _ _ _ _ _ _ hfin' hb'] at ho
          rw [List.cons_append, handleLoop_gen_none _ _ _ _ _ _ hfin' hb',
            handleLoop_gen_none _ _ _ _ _ _ hfin' hb']
          exact ih _ _ _ ho
        | some pid =>
          rw [handleLoop_gen_some _ _ _ _ _ _ _ hfin' hb'] at ho
          rw [List.cons_append, handleLoop_gen_some _ _ _ _ _ _ _ hfin' hb',
            handleLoop_gen_some _ _ _ _ _ _ _ hfin' hb']
          exact ih _ _ _ ho

/-- Append-stability of `handle_agent_msgs` on non-exhaustion outcomes. -/
theorem handle_agent_msgs_append (is_new : Bool) (l : List String)
    (rest suf : List Msg) (st : RState)
    (ho : (handle_agent_msgs is_new l rest st).1 ≠ .exhausted) :
    handle_agent_msgs is_new l (rest ++ suf) st =
      ((handle_agent_msgs is_new l rest st).1,
       (handle_agent_msgs is_new l rest st).2.1,
       (handle_agent_msgs is_new l rest st).2.2 ++ suf) := by
  cases rest with
  | nil =>
    rw [handle_agent_msgs] at ho
    simp at ho
  | cons first rest' =>
    rw [handle_agent_msgs] at ho
    rw [List.cons_append, handle_agent_msgs, handle_agent_msgs]
    exact handleLoop_append _ _ _ _ _ _ _ ho

/-- Append-stability of the tool-call pass on non-exhaustion outcomes. -/
theorem processToolCalls_append (is_new : Bool) (l : List String)
    (tcs : List ToolCall) (cur : Option String) (rest suf : List Msg) (st : RState)
    (ho : (processToolCalls is_new l tcs cur rest st).1 ≠ .exhausted) :
    processToolCalls is_new l tcs cur (rest ++ suf) st =
      ((processToolCalls is_new l tcs cur rest st).1,
       (processToolCalls is_new l tcs cur rest st).2.1,
       (processToolCalls is_new l tcs cur rest st).2.2 ++ suf) := by
  induction tcs generalizing cur rest st with
  | nil => rw [processToolCalls_empty, processToolCalls_empty]
  | cons tc tcs ih =>
    by_cases hh : isHandoff tc.name = true
    · rw [processToolCalls_handoff _ _ _ _ _ _ _ hh] at ho
      rw [processToolCalls_handoff _ _ _ _ _ _ _ hh,
        processToolCalls_handoff _ _ _ _ _ _ _ hh]
      exact handle_agent_msgs_append _ _ _ _ _ ho
    · have hh' : isHandoff tc.name = false := by simpa using hh
      cases rest with
      | nil =>
        rw [processToolCalls_exhaust _ _ _ _ _ _ hh'] at ho
        simp at ho
      | cons r rest' =>
        rw [List.cons_append]
        cases r with
        | tool tcid c =>
          by_cases h1 : tcid = ""
          · subst h1
            rw [processToolCalls_falsy _ _ _ _ _ _ _ _ hh'] at ho
            rw [processToolCalls_falsy _ _ _ _ _ _ _ _ hh',
              processToolCalls_falsy _ _ _ _ _ _ _ _ hh']
            exact ih _ _ _ ho
          · by_cases h2 : l.contains tcid = true
            · rw [processToolCalls_truthy _ _ _ _ _ _ _ _ _ hh' h1 h2] at ho
              rw [processToolCalls_truthy _ _ _ _ _ _ _ _ _ hh' h1 h2,
                processToolCalls_truthy _ _ _ _ _ _ _ _ _ hh' h1 h2]
              exact ih _ _ _ ho
            · have h2' : l.contains tcid = false := by simpa using h2
              rw [processToolCalls_keyerr _ _ _ _ _ _ _ _ _ hh' h1 h2',
                processToolCalls_keyerr _ _ _ _ _ _ _ _ _ hh' h1 h2']
        | human c =>
          rw [processToolCalls_badresult _ _ _ _ _ _ _ _ hh'
              (fun tcid c1 h => Msg.noConfusion h),
            processToolCalls_badresult _ _ _ _ _ _ _ _ hh'
              (fun tcid c1 h => Msg.noConfusion h)]
        | ai c tcs2 f =>
          rw [processToolCalls_badresult _ _ _ _ _ _ _ _ hh'
              (fun tcid c1 h => Msg.noConfusion h),
            processToolCalls_badresult _ _ _ _ _ _ _ _ hh'
              (fun tcid c1 h => Msg.noConfusion h)]
        | other c =>
          rw [processToolCalls_badresult _ _ _ _ _ _ _ _ hh'
              (fun tcid c1 h => Msg.noConfusion h),
            processToolCalls_badresult _ _ _ _ _ _ _ _ hh'
              (fun tcid c1 h => Msg.noConfusion h)]

/-- Append-stability of the whole reduction on abort outcomes: if a run
aborted (neither normal completion nor exhaustion), appending further
events changes nothing but the returned remainder. -/
theorem drawLoop_append (n : Nat) (is_new : Bool) (evs suf : List Msg)
    (k : LastK) (st : RState) (hn : evs.length ≤ n)
    (ho1 : (drawLoop is_new evs k st).1 ≠ .ok)
    (ho2 : (drawLoop is_new evs k st).1 ≠ .exhausted) :
    drawLoop is_new (evs ++ suf) k st =
      ((drawLoop is_new evs k st).1, (drawLoop is_new evs k st).2.1,
       (drawLoop is_new evs k st).2.2 ++ suf) := by
  induction n generalizing evs k st with
  | zero =>
    have he : evs = [] := List.length_eq_zero.mp (Nat.le_zero.mp hn)
    subst he
    rw [drawLoop_nil] at ho1
    simp at ho1
  | succ n ih =>
    cases evs with
    | nil =>
      rw [drawLoop_nil] at ho1
      simp at ho1
    | cons m rest =>
      have hlen : rest.length ≤ n := by
        have := hn
        simp only [List.length_cons] at this
        omega
      cases m with
      | human c =>
        rw [drawLoop_human] at ho1 ho2
        rw [List.cons_append, drawLoop_human, drawLoop_human]
        exact ih _ _ _ hlen ho1 ho2
      | tool i c =>
        rw [List.cons_append, drawLoop_tool, drawLoop_tool]
      | other c =>
        rw [List.cons_append, drawLoop_other, drawLoop_other]
      | ai c tcs fin =>
        by_cases he : tcs.isEmpty
        · rw [drawLoop_ai_nocalls _ _ _ _ _ _ _ he] at ho1 ho2
          rw [List.cons_append, drawLoop_ai_nocalls _ _ _ _ _ _ _ he,
            drawLoop_ai_nocalls _ _ _ _ _ _ _ he]
          exact ih _ _ _ hlen ho1 ho2
        · have he' : tcs.isEmpty = false := by simpa using he
          by_cases hres : (processToolCalls is_new (tcs.map ToolCall.id) tcs
              (tcs.getLast?.map ToolCall.id) rest
              (createPanels is_new tcs (aiPrep is_new (.ai c tcs fin) k st))).1 = .ok
          · have happ := processToolCalls_append is_new (tcs.map ToolCall.id) tcs
              (tcs.getLast?.map ToolCall.id) rest suf
              (createPanels is_new tcs (aiPrep is_new (.ai c tcs fin) k st))
              (by rw [hres]; exact fun h => Outcome.noConfusion h)
            have hres2 : (processToolCalls is_new (tcs.map ToolCall.id) tcs
                (tcs.getLast?.map ToolCall.id) (rest ++ suf)
                (createPanels is_new tcs (aiPrep is_new (.ai c tcs fin) k st))).1 = .ok := by
              rw [happ]
              exact hres
            rw [drawLoop_ai_calls_ok _ _ _ _ _ _ _ he' hres] at ho1 ho2
            rw [List.cons_append, drawLoop_ai_calls_ok _ _ _ _ _ _ _ he' hres2,
              drawLoop_ai_calls_ok _ _ _ _ _ _ _ he' hres, happ]
            exact ih _ _ _ (le_trans (processToolCalls_len ..) hlen) ho1 ho2
          · have happ := processToolCalls_append is_new (tcs.map ToolCall.id) tcs
              (tcs.getLast?.map ToolCall.id) rest suf
              (createPanels is_new tcs (aiPrep is_new (.ai c tcs fin) k st))
              (by
                rw [drawLoop_ai_calls_err _ _ _ _ _ _ _ he' hres] at ho2
                exact ho2)
            have hres2 : ¬ (processToolCalls is_new (tcs.map ToolCall.id) tcs
                (tcs.getLast?.map ToolCall.id) (rest ++ suf)
                (createPanels is_new tcs (aiPrep is_new (.ai c tcs fin) k st))).1 = .ok := by
              rw [happ]
              exact hres
            rw [drawLoop_ai_calls_err _ _ _ _ _ _ _ he' hres] at ho1 ho2 ⊢
            rw [List.cons_append, drawLoop_ai_calls_err _ _ _ _ _ _ _ he' hres2, happ]

/-- Claim C5, confirmed: whenever the reducer hits a protocol violation —
a top-level event that is neither human nor AI, or a non-tool message
pulled as the answer to a non-hand-off tool call — it reports that error
as the outcome and halts: the events after the violation are never pulled,
so running on `pre ++ suf` returns exactly the outcome and state of the
run on `pre`, with `suf` handed back unconsumed. -/
theorem C5_theorem (is_new : Bool) (pre suf : List Msg) (k : LastK) (st : RState)
    (hviol : (∃ t, (drawLoop is_new pre k st).1 = .unexpectedType t) ∨
             (∃ t, (drawLoop is_new pre k st).1 = .unexpectedResult t)) :
    drawLoop is_new (pre ++ suf) k st =
      ((drawLoop is_new pre k st).1, (drawLoop is_new pre k st).2.1,
       (drawLoop is_new pre k st).2.2 ++ suf) := by
  have ho1 : (drawLoop is_new pre k st).1 ≠ .ok := by
    rcases hviol with ⟨t, h⟩ | ⟨t, h⟩ <;> rw [h] <;>
      exact fun hc => Outcome.noConfusion hc
  have ho2 : (drawLoop is_new pre k st).1 ≠ .exhausted := by
    rcases hviol with ⟨t, h⟩ | ⟨t, h⟩ <;> rw [h] <;>
      exact fun hc => Outcome.noConfusion hc
  exact drawLoop_append pre.length is_new pre suf k st le_rfl ho1 ho2

/-- Witness for C5_theorem: an unexpected top-level tool message halts the
run and the appended human message is returned unconsumed. -/
theorem C5_witness :
    drawLoop true ([.tool "x" "r"] ++ [.human "later"]) .start initState =
      ((drawLoop true [.tool "x" "r"] .start initState).1,
       (drawLoop true [.tool "x" "r"] .start initState).2.1,
       (drawLoop true [.tool "x" "r"] .start initState).2.2 ++ [.human "later"]) :=
  C5_theorem true [.tool "x" "r"] [.human "later"] .start initState
    (Or.inl ⟨"tool", by decide⟩)

/-! ## Claim C6 -/

@[simp] theorem startHuman_blocksRev (c : String) (st : RState) :
    (startHuman c st).blocksRev = .human c :: st.blocksRev := rfl

@[simp] theorem startAiBlock_blocksRev (st : RState) :
    (startAiBlock st).blocksRev = .ai [] :: st.blocksRev := rfl

@[simp] theorem writePop_pops (st : RState) (i c : String) :
    (writePop st i c).pops =
      aupdate st.pops i (fun q => { q with outputs := q.outputs ++ [c] }) := rfl

@[simp] theorem addPops_snd (pid : String) (tcs : List ToolCall) (st : RState)
    (lp : List String) :
    (addPops pid tcs st lp).2 = lp ++ tcs.map ToolCall.id := by
  rw [addPops_spec]

/-- The pure effect of `pushItem` on the block list. -/
def pushItemB (bs : List Block) (it : AItem) : List Block :=
  match bs with
  | .ai items :: rest => .ai (it :: items) :: rest
  | bs0 => bs0

@[simp] theorem pushItem_blocksRev (it : AItem) (st : RState) :
    (pushItem it st).blocksRev = pushItemB st.blocksRev it := by
  obtain ⟨bs, a, b, cc⟩ := st
  cases bs with
  | nil => rfl
  | cons blk bs' => cases blk <;> rfl

/-- A panel as the replay pass creates it: state forced to complete. -/
def forceComplete (p : Panel) : Panel := { p with state := .complete }

/-- Panel store with every panel's state forced to complete. -/
def mapComplete (ps : List (String × Panel)) : List (String × Panel) :=
  ps.map (fun kp => (kp.1, forceComplete kp.2))

/-- Relation between the state of a `mark_as_new = true` pass and the state
of the corresponding `mark_as_new = false` pass at the same point of the
stream: identical blocks and popovers, and identical panels up to every
panel state being complete. -/
def relS (s t : RState) : Prop :=
  t.blocksRev = s.blocksRev ∧ t.pops = s.pops ∧ t.panels = mapComplete s.panels

theorem mapComplete_aupdate (ps : List (String × Panel)) (k : String)
    (f : Panel → Panel) (hf : ∀ p, forceComplete (f p) = f (forceComplete p)) :
    mapComplete (aupdate ps k f) = aupdate (mapComplete ps) k f := by
  induction ps with
  | nil => rfl
  | cons kv rest ih =>
    obtain ⟨k', v⟩ := kv
    unfold aupdate
    by_cases hk : k' = k
    · simp only [if_pos hk, mapComplete, List.map_cons, hf v]
    · simp only [if_neg hk, mapComplete, List.map_cons]
      simp only [mapComplete] at ih
      rw [ih]

theorem relS_persist (b b2 : Bool) (m : Msg) (s t : RState) (h : relS s t) :
    relS (persist b m s) (persist b2 m t) := by
  obtain ⟨h1, h2, h3⟩ := h
  exact ⟨by simp [h1], by simp [h2], by simp [h3]⟩

theorem relS_writePanelOut (pid c : String) (s t : RState) (h : relS s t) :
    relS (writePanel s pid (panelOut c)) (writePanel t pid (panelOut c)) := by
  obtain ⟨h1, h2, h3⟩ := h
  refine ⟨by simp [h1], by simp [h2], ?_⟩
  simp only [writePanel_panels, h3]
  exact (mapComplete_aupdate s.panels pid (panelOut c) (fun p => rfl)).symm

theorem relS_writePanelCC (pid c : String) (s t : RState) (h : relS s t) :
    relS (writePanel s pid (fun p => panelComplete (panelOut c p)))
      (writePanel t pid (fun p => panelComplete (panelOut c p))) := by
  obtain ⟨h1, h2, h3⟩ := h
  refine ⟨by simp [h1], by simp [h2], ?_⟩
  simp only [writePanel_panels, h3]
  exact (mapComplete_aupdate s.panels pid
    (fun p => panelComplete (panelOut c p)) (fun p => rfl)).symm

theorem relS_completeOpt (sid : Option String) (s t : RState) (h : relS s t) :
    relS (completeOpt sid s) (completeOpt sid t) := by
  cases sid with
  | none => exact h
  | some pid =>
    obtain ⟨h1, h2, h3⟩ := h
    refine ⟨by simp [completeOpt, h1], by simp [completeOpt, h2], ?_⟩
    simp only [completeOpt, writePanel_panels, h3]
    exact (mapComplete_aupdate s.panels pid panelComplete (fun p => rfl)).symm

theorem relS_writePop (i c : String) (s t : RState) (h : relS s t) :
    relS (writePop s i c) (writePop t i c) := by
  obtain ⟨h1, h2, h3⟩ := h
  exact ⟨by simp [h1], by simp [h2], by simp [h3]⟩

theorem relS_addPops (pid : String) (tcs : List ToolCall) (lp : List String)
    (s t : RState) (h : relS s t) :
    relS (addPops pid tcs s lp).1 (addPops pid tcs t lp).1 := by
  obtain ⟨h1, h2, h3⟩ := h
  rw [addPops_spec, addPops_spec]
  exact ⟨by simp [h1], by simp [h2], by simp [h3]⟩

theorem relS_aiPrep (m : Msg) (k : LastK) (s t : RState) (h : relS s t) :
    relS (aiPrep true m k s) (aiPrep false m k t) := by
  obtain ⟨h1, h2, h3⟩ := h
  refine ⟨?_, by simp [h2], by simp [h3]⟩
  by_cases hc : m.content = "" <;> by_cases hk : k = LastK.ai <;>
    simp [aiPrep, hc, hk, h1]

theorem relS_createPanels (tcs : List ToolCall) (s t : RState) (h : relS s t) :
    relS (createPanels true tcs s) (createPanels false tcs t) := by
  induction tcs generalizing s t with
  | nil => exact h
  | cons tc tcs ih =>
    rw [createPanels, createPanels]
    apply ih
    obtain ⟨h1, h2, h3⟩ := h
    refine ⟨by simp [h1], by simp [h2], ?_⟩
    simp [h3, mapComplete, forceComplete]

/-- The structural relation between a new-pass and a replay-pass run of the
nested handler loop: same outcome, same remainder, related states. -/
theorem handleLoop_rel (statusId : Option String) (cur : Msg) (lp : List String)
    (rest : List Msg) (s t : RState) (h : relS s t) :
    (handleLoop false statusId cur lp rest t).1 =
      (handleLoop true statusId cur lp rest s).1 ∧
    (handleLoop false statusId cur lp rest t).2.2 =
      (handleLoop true statusId cur lp rest s).2.2 ∧
    relS (handleLoop true statusId cur lp rest s).2.1
      (handleLoop false statusId cur lp rest t).2.1 := by
  induction rest generalizing cur lp s t with
  | nil =>
    by_cases hfin : isFinished cur = true
    · rw [handleLoop_fin _ _ _ _ _ _ hfin, handleLoop_fin _ _ _ _ _ _ hfin]
      exact ⟨rfl, rfl, relS_completeOpt _ _ _ h⟩
    · rw [handleLoop_empty _ _ _ _ _ (by simpa using hfin),
        handleLoop_empty _ _ _ _ _ (by simpa using hfin)]
      exact ⟨rfl, rfl, h⟩
  | cons sub rest' ih =>
    by_cases hfin : isFinished cur = true
    · rw [handleLoop_fin _ _ _ _ _ _ hfin, handleLoop_fin _ _ _ _ _ _ hfin]
      exact ⟨rfl, rfl, relS_completeOpt _ _ _ h⟩
    · have hfin' : isFinished cur = false := by simpa using hfin
      by_cases hb : (sub.type == "tool" && lp.contains (sub.toolCallId.getD "")) = true
      · rw [handleLoop_pop _ _ _ _ _ _ _ hfin' hb,
          handleLoop_pop _ _ _ _ _ _ _ hfin' hb]
        exact ih _ _ _ _ (relS_writePop _ _ _ _ (relS_persist _ _ _ _ _ h))
      · have hb' : (sub.type == "tool" && lp.contains (sub.toolCallId.getD "")) = false := by
          simpa using hb
        cases statusId with
        | none =>
          rw [handleLoop_gen_none _ _ _ _ _ _ hfin' hb',
            handleLoop_gen_none _ _ _ _ _ _ hfin' hb']
          exact ih _ _ _ _ (relS_persist _ _ _ _ _ h)
        | some pid =>
          rw [handleLoop_gen_some _ _ _ _ _ _ _ hfin' hb',
            handleLoop_gen_some _ _ _ _ _ _ _ hfin' hb', addPops_snd, addPops_snd]
          apply ih
          apply relS_addPops
          by_cases hc : sub.content = ""
          · rw [if_neg (by simp [hc]), if_neg (by simp [hc])]
            exact relS_persist _ _ _ _ _ h
          · rw [if_pos hc, if_pos hc]
            exact relS_writePanelOut _ _ _ _ (relS_persist _ _ _ _ _ h)

/-- The structural relation for `handle_agent_msgs`. -/
theorem handle_agent_msgs_rel (l : List String) (rest : List Msg) (s t : RState)
    (h : relS s t) :
    (handle_agent_msgs false l rest t).1 = (handle_agent_msgs true l rest s).1 ∧
    (handle_agent_msgs false l rest t).2.2 = (handle_agent_msgs true l rest s).2.2 ∧
    relS (handle_agent_msgs true l rest s).2.1
      (handle_agent_msgs false l rest t).2.1 := by
  cases rest with
  | nil =>
    rw [handle_agent_msgs, handle_agent_msgs]
    exact ⟨rfl, rfl, h⟩
  | cons first rest' =>
    rw [handle_agent_msgs, handle_agent_msgs]
    refine handleLoop_rel _ _ _ _ _ _ ?_
    cases htc : first.toolCallId with
    | none =>
      simp only [htc]
      exact relS_persist _ _ _ _ _ h
    | some i =>
      simp only [htc]
      by_cases hmem : l.contains i = true
      · simp only [hmem, if_true]
        by_cases hc : first.content = ""
        · rw [if_neg (by simp [hc]), if_neg (by simp [hc])]
          exact relS_persist _ _ _ _ _ h
        · rw [if_pos hc, if_pos hc]
          exact relS_writePanelOut _ _ _ _ (relS_persist _ _ _ _ _ h)
      · simp only [Bool.not_eq_true] at hmem
        simp only [hmem, Bool.false_eq_true, if_false]
        exact relS_persist _ _ _ _ _ h

/-- The structural relation for the tool-call pass. -/
theorem processToolCalls_rel (l : List String) (tcs : List ToolCall)
    (cur : Option String) (rest : List Msg) (s t : RState) (h : relS s t) :
    (processToolCalls false l tcs cur rest t).1 =
      (processToolCalls true l tcs cur rest s).1 ∧
    (processToolCalls false l tcs cur rest t).2.2 =
      (processToolCalls true l tcs cur rest s).2.2 ∧
    relS (processToolCalls true l tcs cur rest s).2.1
      (processToolCalls false l tcs cur rest t).2.1 := by
  induction tcs generalizing cur rest s t with
  | nil =>
    rw [processToolCalls_empty, processToolCalls_empty]
    exact ⟨rfl, rfl, h⟩
  | cons tc tcs ih =>
    by_cases hh : isHandoff tc.name = true
    · rw [processToolCalls_handoff _ _ _ _ _ _ _ hh,
        processToolCalls_handoff _ _ _ _ _ _ _ hh]
      exact handle_agent_msgs_rel _ _ _ _ h
    · have hh' : isHandoff tc.name = false := by simpa using hh
      cases rest with
      | nil =>
        rw [processToolCalls_exhaust _ _ _ _ _ _ hh',
          processToolCalls_exhaust _ _ _ _ _ _ hh']
        exact ⟨rfl, rfl, h⟩
      | cons r rest' =>
        cases r with
        | tool tcid c =>
          by_cases h1 : tcid = ""
          · subst h1
            rw [processToolCalls_falsy _ _ _ _ _ _ _ _ hh',
              processToolCalls_falsy _ _ _ _ _ _ _ _ hh']
            apply ih
            cases cur with
            | none =>
              dsimp only
              exact relS_persist _ _ _ _ _ h
            | some pid =>
              dsimp only
              exact relS_writePanelCC _ _ _ _ (relS_persist _ _ _ _ _ h)
          · by_cases h2 : l.contains tcid = true
            · rw [processToolCalls_truthy _ _ _ _ _ _ _ _ _ hh' h1 h2,
                processToolCalls_truthy _ _ _ _ _ _ _ _ _ hh' h1 h2]
              exact ih _ _ _ _ (relS_writePanelCC _ _ _ _ (relS_persist _ _ _ _ _ h))
            · have h2' : l.contains tcid = false := by simpa using h2
              rw [processToolCalls_keyerr _ _ _ _ _ _ _ _ _ hh' h1 h2',
                processToolCalls_keyerr _ _ _ _ _ _ _ _ _ hh' h1 h2']
              exact ⟨rfl, rfl, relS_persist _ _ _ _ _ h⟩
        | human c =>
          rw [processToolCalls_badresult _ _ _ _ _ _ _ _ hh'
              (fun tcid c1 hx => Msg.noConfusion hx),
            processToolCalls_badresult _ _ _ _ _ _ _ _ hh'
              (fun tcid c1 hx => Msg.noConfusion hx)]
          exact ⟨rfl, rfl, h⟩
        | ai c tcs2 f =>
          rw [processToolCalls_badresult _ _ _ _ _ _ _ _ hh'
              (fun tcid c1 hx => Msg.noConfusion hx),
            processToolCalls_badresult _ _ _ _ _ _ _ _ hh'
              (fun tcid c1 hx => Msg.noConfusion hx)]
          exact ⟨rfl, rfl, h⟩
        | other c =>
          rw [processToolCalls_badresult _ _ _ _ _ _ _ _ hh'
              (fun tcid c1 hx => Msg.noConfusion hx),
            processToolCalls_badresult _ _ _ _ _ _ _ _ hh'
              (fun tcid c1 hx => Msg.noConfusion hx)]
          exact ⟨rfl, rfl, h⟩

/-- The structural relation for the whole reduction: a replay pass
(`mark_as_new = false`) of the same stream returns the same outcome and
remainder as the new pass, with the same blocks and popovers, and the same
panels up to every panel being created complete. -/
theorem drawLoop_rel (n : Nat) (evs : List Msg) (k : LastK) (s t : RState)
    (hn : evs.length ≤ n) (h : relS s t) :
    (drawLoop false evs k t).1 = (drawLoop true evs k s).1 ∧
    (drawLoop false evs k t).2.2 = (drawLoop true evs k s).2.2 ∧
    relS (drawLoop true evs k s).2.1 (drawLoop false evs k t).2.1 := by
  induction n generalizing evs k s t with
  | zero =>
    have he : evs = [] := List.length_eq_zero.mp (Nat.le_zero.mp hn)
    subst he
    rw [drawLoop_nil, drawLoop_nil]
    exact ⟨rfl, rfl, h⟩
  | succ n ih =>
    cases evs with
    | nil =>
      rw [drawLoop_nil, drawLoop_nil]
      exact ⟨rfl, rfl, h⟩
    | cons m rest =>
      have hlen : rest.length ≤ n := by
        have := hn
        simp only [List.length_cons] at this
        omega
      cases m with
      | human c =>
        rw [drawLoop_human, drawLoop_human]
        refine ih _ _ _ _ hlen ?_
        obtain ⟨h1, h2, h3⟩ := h
        exact ⟨by simp [h1], by simp [h2], by simp [h3]⟩
      | tool i c =>
        rw [drawLoop_tool, drawLoop_tool]
        exact ⟨rfl, rfl, h⟩
      | other c =>
        rw [drawLoop_other, drawLoop_other]
        exact ⟨rfl, rfl, h⟩
      | ai c tcs fin =>
        by_cases he : tcs.isEmpty
        · rw [drawLoop_ai_nocalls _ _ _ _ _ _ _ he,
            drawLoop_ai_nocalls _ _ _ _ _ _ _ he]
          exact ih _ _ _ _ hlen (relS_aiPrep _ _ _ _ h)
        · have he' : tcs.isEmpty = false := by simpa using he
          obtain ⟨e1, e2, e3⟩ := processToolCalls_rel (tcs.map ToolCall.id) tcs
            (tcs.getLast?.map ToolCall.id) rest
            (createPanels true tcs (aiPrep true (.ai c tcs fin) k s))
            (createPanels false tcs (aiPrep false (.ai c tcs fin) k t))
            (relS_createPanels _ _ _ (relS_aiPrep _ _ _ _ h))
          by_cases hres : (processToolCalls true (tcs.map ToolCall.id) tcs
              (tcs.getLast?.map ToolCall.id) rest
              (createPanels true tcs (aiPrep true (.ai c tcs fin) k s))).1 = .ok
          · have hres2 : (processToolCalls false (tcs.map ToolCall.id) tcs
                (tcs.getLast?.map ToolCall.id) rest
                (createPanels false tcs (aiPrep false (.ai c tcs fin) k t))).1 = .ok := by
              rw [e1, hres]
            rw [drawLoop_ai_calls_ok _ _ _ _ _ _ _ he' hres,
              drawLoop_ai_calls_ok _ _ _ _ _ _ _ he' hres2, e2]
            refine ih _ _ _ _ ?_ e3
            exact le_trans (processToolCalls_len ..) hlen
          · have hres2 : ¬ (processToolCalls false (tcs.map ToolCall.id) tcs
                (tcs.getLast?.map ToolCall.id) rest
                (createPanels false tcs (aiPrep false (.ai c tcs fin) k t))).1 = .ok := by
              rw [e1]
              exact hres
            rw [drawLoop_ai_calls_err _ _ _ _ _ _ _ he' hres,
              drawLoop_ai_calls_err _ _ _ _ _ _ _ he' hres2]
            exact ⟨e1, e2, e3⟩

/-- A `mark_as_new = false` pass of the handler loop never appends to the
persisted list. -/
theorem handleLoop_pf (statusId : Option String) (cur : Msg) (lp : List String)
    (rest : List Msg) (t : RState) :
    (handleLoop false statusId cur lp rest t).2.1.persisted = t.persisted := by
  induction rest generalizing cur lp t with
  | nil =>
    by_cases hfin : isFinished cur = true
    · rw [handleLoop_fin _ _ _ _ _ _ hfin]
      simp
    · rw [handleLoop_empty _ _ _ _ _ (by simpa using hfin)]
  | cons sub rest' ih =>
    by_cases hfin : isFinished cur = true
    · rw [handleLoop_fin _ _ _ _ _ _ hfin]
      simp
    · have hfin' : isFinished cur = false := by simpa using hfin
      by_cases hb : (sub.type == "tool" && lp.contains (sub.toolCallId.getD "")) = true
      · rw [handleLoop_pop _ _ _ _ _ _ _ hfin' hb, ih]
        simp
      · have hb' : (sub.type == "tool" && lp.contains (sub.toolCallId.getD "")) = false := by
          simpa using hb
        cases statusId with
        | none =>
          rw [handleLoop_gen_none _ _ _ _ _ _ hfin' hb', ih]
          simp
        | some pid =>
          rw [handleLoop_gen_some _ _ _ _ _ _ _ hfin' hb', ih]
          by_cases hc : sub.content = ""
          · rw [if_neg (by simp [hc])]
            simp
          · rw [if_pos hc]
            simp

/-- A `mark_as_new = false` pass of `handle_agent_msgs` never appends. -/
theorem handle_agent_msgs_pf (l : List String) (rest : List Msg) (t : RState) :
    (handle_agent_msgs false l rest t).2.1.persisted = t.persisted := by
  cases rest with
  | nil => rw [handle_agent_msgs]
  | cons first rest' =>
    rw [handle_agent_msgs, handleLoop_pf]
    cases htc : first.toolCallId with
    | none => simp [htc]
    | some i =>
      by_cases hmem : i ∈ l <;> by_cases hc : first.content = "" <;>
        simp [htc, hmem, hc]

/-- A `mark_as_new = false` pass of the tool-call pass never appends. -/
theorem processToolCalls_pf (l : List String) (tcs : List ToolCall)
    (cur : Option String) (rest : List Msg) (t : RState) :
    (processToolCalls false l tcs cur rest t).2.1.persisted = t.persisted := by
  induction tcs generalizing cur rest t with
  | nil => rw [processToolCalls_empty]
  | cons tc tcs ih =>
    by_cases hh : isHandoff tc.name = true
    · rw [processToolCalls_handoff _ _ _ _ _ _ _ hh]
      exact handle_agent_msgs_pf _ _ _
    · have hh' : isHandoff tc.name = false := by simpa using hh
      cases rest with
      | nil => rw [processToolCalls_exhaust _ _ _ _ _ _ hh']
      | cons r rest' =>
        cases r with
        | tool tcid c =>
          by_cases h1 : tcid = ""
          · subst h1
            rw [processToolCalls_falsy _ _ _ _ _ _ _ _ hh', ih]
            cases cur <;> simp
          · by_cases h2 : l.contains tcid = true
            · rw [processToolCalls_truthy _ _ _ _ _ _ _ _ _ hh' h1 h2, ih]
              simp
            · have h2' : l.contains tcid = false := by simpa using h2
              rw [processToolCalls_keyerr _ _ _ _ _ _ _ _ _ hh' h1 h2']
              simp
        | human c =>
          rw [processToolCalls_badresult _ _ _ _ _ _ _ _ hh'
            (fun tcid c1 hx => Msg.noConfusion hx)]
        | ai c tcs2 f =>
          rw [processToolCalls_badresult _ _ _ _ _ _ _ _ hh'
            (fun tcid c1 hx => Msg.noConfusion hx)]
        | other c =>
          rw [processToolCalls_badresult _ _ _ _ _ _ _ _ hh'
            (fun tcid c1 hx => Msg.noConfusion hx)]

/-- A full `mark_as_new = false` pass never appends to the persisted list:
the "to persist" delta of a replay is empty. -/
theorem drawLoop_pf (n : Nat) (evs : List Msg) (k : LastK) (t : RState)
    (hn : evs.length ≤ n) :
    (drawLoop false evs k t).2.1.persisted = t.persisted := by
  induction n generalizing evs k t with
  | zero =>
    have he : evs = [] := List.length_eq_zero.mp (Nat.le_zero.mp hn)
    subst he
    rw [drawLoop_nil]
  | succ n ih =>
    cases evs with
    | nil => rw [drawLoop_nil]
    | cons m rest =>
      have hlen : rest.length ≤ n := by
        have := hn
        simp only [List.length_cons] at this
        omega
      cases m with
      | human c =>
        rw [drawLoop_human, ih _ _ _ hlen]
        simp
      | tool i c => rw [drawLoop_tool]
      | other c => rw [drawLoop_other]
      | ai c tcs fin =>
        by_cases he : tcs.isEmpty
        · rw [drawLoop_ai_nocalls _ _ _ _ _ _ _ he, ih _ _ _ hlen]
          simp
        · have he' : tcs.isEmpty = false := by simpa using he
          by_cases hres : (processToolCalls false (tcs.map ToolCall.id) tcs
              (tcs.getLast?.map ToolCall.id) rest
              (createPanels false tcs (aiPrep false (.ai c tcs fin) k t))).1 = .ok
          · rw [drawLoop_ai_calls_ok _ _ _ _ _ _ _ he' hres,
              ih _ _ _ (le_trans (processToolCalls_len ..) hlen),
              processToolCalls_pf]
            simp
          · rw [drawLoop_ai_calls_err _ _ _ _ _ _ _ he' hres, processToolCalls_pf]
            simp

theorem forceComplete_of_complete (p : Panel) (hp : p.state = .complete) :
    forceComplete p = p := by
  obtain ⟨n, a, o, s, cc⟩ := p
  simp only [forceComplete]
  simp only at hp
  rw [hp]

theorem mapComplete_id (ps : List (String × Panel))
    (hc : ∀ kp ∈ ps, kp.2.state = PanelState.complete) :
    mapComplete ps = ps := by
  induction ps with
  | nil => rfl
  | cons kv rest ih =>
    obtain ⟨k, v⟩ := kv
    simp only [mapComplete, List.map_cons]
    rw [forceComplete_of_complete v (hc (k, v) (List.mem_cons_self _ _))]
    have hr := ih (fun kp hkp => hc kp (List.mem_cons_of_mem _ hkp))
    simp only [mapComplete] at hr
    rw [hr]

/-- Claim C6 is false as stated: a stream containing a `HumanText` event
produces a human rendering block, but the human message is not persisted,
so replaying the persisted list (here empty) produces a different rendering
structure (no human block).  The empty-delta half of the claim does hold. -/
theorem C6_counterexample :
    (draw_messages [.human "hi"] true).1 = .ok ∧
    (draw_messages [.human "hi"] true).2.1.persisted = [] ∧
    (draw_messages [.human "hi"] true).2.1.blocksRev = [.human "hi"] ∧
    (draw_messages ([] : List Msg) false).2.1.blocksRev = [] := by
  decide

/-- Claim C6, amended: feeding a previously-persisted message list back
through the reducer with `mark_as_new = false` always leaves the persisted
accumulator unchanged (empty delta); and provided the original pass
consumed no `HumanText` events (which are never persisted) and left every
panel complete, the replay reproduces exactly the original rendering
structure: same blocks, same panels, same popovers. -/
theorem C6_theorem (evs : List Msg) (st1 : RState)
    (hh : ∀ m ∈ evs, m.isHumanMsg = false)
    (h1 : draw_messages evs true = (.ok, st1, []))
    (hc : ∀ kp ∈ st1.panels, kp.2.state = PanelState.complete) :
    draw_messages st1.persisted false =
      (.ok, ⟨st1.blocksRev, st1.panels, st1.pops, []⟩, []) := by
  rw [draw_messages] at h1
  have hok : (drawLoop true evs .start initState).1 = .ok := by rw [h1]
  have hpers : st1.persisted = evs := by
    have hd := (drawLoop_delta evs.length evs .start initState le_rfl hh hok).1
    rw [h1] at hd
    simpa [initState] using hd
  obtain ⟨e1, e2, e3⟩ := drawLoop_rel evs.length evs .start initState initState
    le_rfl ⟨rfl, rfl, rfl⟩
  rw [h1] at e1 e2 e3
  have hpf := drawLoop_pf evs.length evs .start initState le_rfl
  rw [draw_messages, hpers]
  rcases hE : drawLoop false evs .start initState with ⟨o2, st2, rem2⟩
  rw [hE] at e1 e2 e3 hpf
  obtain ⟨r1, r2, r3⟩ := e3
  simp only [Prod.mk.injEq]
  refine ⟨e1, ?_, e2⟩
  obtain ⟨b2, p2, q2, s2⟩ := st2
  simp only [RState.mk.injEq]
  simp only at r1 r2 r3 hpf
  exact ⟨r1, by rw [r3, mapComplete_id _ hc], r2, by simpa [initState] using hpf⟩

/-- Witness for C6_theorem: a complete one-call turn replays to the same
rendering with an empty persisted delta. -/
theorem C6_witness :
    draw_messages (RState.persisted ⟨[.ai [.panelRef "c1", .text "a"]],
        [("c1", ⟨"f", "x", ["r"], .complete, 1⟩)], [],
        [.ai "a" [⟨"c1", "f", "x"⟩] none, .tool "c1" "r"]⟩) false =
      (.ok, ⟨RState.blocksRev ⟨[.ai [.panelRef "c1", .text "a"]],
          [("c1", ⟨"f", "x", ["r"], .complete, 1⟩)], [],
          [.ai "a" [⟨"c1", "f", "x"⟩] none, .tool "c1" "r"]⟩,
        RState.panels ⟨[.ai [.panelRef "c1", .text "a"]],
          [("c1", ⟨"f", "x", ["r"], .complete, 1⟩)], [],
          [.ai "a" [⟨"c1", "f", "x"⟩] none, .tool "c1" "r"]⟩,
        RState.pops ⟨[.ai [.panelRef "c1", .text "a"]],
          [("c1", ⟨"f", "x", ["r"], .complete, 1⟩)], [],
          [.ai "a" [⟨"c1", "f", "x"⟩] none, .tool "c1" "r"]⟩, []⟩, []) :=
  C6_theorem [.ai "a" [⟨"c1", "f", "x"⟩] none, .tool "c1" "r"]
    ⟨[.ai [.panelRef "c1", .text "a"]],
     [("c1", ⟨"f", "x", ["r"], .complete, 1⟩)], [],
     [.ai "a" [⟨"c1", "f", "x"⟩] none, .tool "c1" "r"]⟩
    (by decide) (by decide) (by decide)

end StreamReducer
